import Mathlib

/-!
Verification of `pykafka/utils/struct_helpers.py`: a shallow embedding of the
module's decode pipeline (`unpack_from`, `_unpack`, `_unpack_array`,
`unpack_varint_from`) and encode pipeline (`pack_into`, `pack_varint_into`),
together with theorems settling the specification claims.

Modelling conventions:
* A Python byte buffer is a `List Nat`; genuine byte values are `< 256` and
  reads mask with `% 256` (Python `bytes` elements are always in `0..255`).
* Python exceptions (`struct.error`, `IndexError`, `TypeError`) are modelled
  with `Except String`; an exception discards in-place buffer mutations made
  before the raise (no claim observes partially-written buffers).
* Python tuples and lists are both ordered sequences in the spec's data model;
  both are modelled by the single constructor `Value.seq`.
* `struct` is CPython's C module; it is modelled for standard ('!', '>', '<',
  '=') and native ('@'/no marker) modes with x86-64 Linux (LP64) native sizes
  and natural alignment.  The native byte order is a parameter `ByteOrder`
  since it is platform dependent.  IEEE-754 values are kept as raw bytes on
  decode (`Value.float`) and are not packable (no claim involves packing
  floats).
-/

/-- A decoded Python value: ints, bools, byte strings, floats (kept as their
raw wire bytes), `None` (the absent-marker for a length `-1`), and ordered
sequences (Python tuples and lists). -/
inductive Value where
  | int : Int → Value
  | bool : Bool → Value
  | bytes : List Nat → Value
  | float : List Nat → Value
  | none : Value
  | seq : List Value → Value

instance : Inhabited Value := ⟨Value.none⟩

/-- `true` iff an `Except` computation raised. -/
def isErr {ε α : Type} : Except ε α → Bool
  | .error _ => true
  | .ok _ => false

instance {ε α : Type} [DecidableEq ε] [DecidableEq α] : DecidableEq (Except ε α) :=
  fun a b =>
    match a, b with
    | .error e, .error f =>
      if h : e = f then .isTrue (by rw [h]) else .isFalse (by intro hh; cases hh; exact h rfl)
    | .error _, .ok _ => .isFalse (fun hh => Except.noConfusion hh)
    | .ok _, .error _ => .isFalse (fun hh => Except.noConfusion hh)
    | .ok x, .ok y =>
      if h : x = y then .isTrue (by rw [h]) else .isFalse (by intro hh; cases hh; exact h rfl)

/-- The `n` bytes of `buff` starting at `offset` (shorter if the buffer ends). -/
def sliceBytes (buff : List Nat) (offset n : Nat) : List Nat :=
  (buff.drop offset).take n

/-- Big-endian unsigned value of a byte list (each entry masked to a byte). -/
def beNat (bs : List Nat) : Nat :=
  bs.foldl (fun a b => a * 256 + b % 256) 0

/-- Reinterpret a `w`-byte unsigned value as two's-complement signed. -/
def toSigned (w : Nat) (n : Nat) : Int :=
  if n < 2 ^ (8 * w - 1) then (n : Int) else (n : Int) - 2 ^ (8 * w)

/-- `struct.calcsize(c)` for a single format character in standard (`'!'`)
mode; `Option.none` for characters standard mode rejects. -/
def stdSize : Char → Option Nat
  | 'x' | 'c' | 'b' | 'B' | '?' | 's' | 'p' => some 1
  | 'h' | 'H' | 'e' => some 2
  | 'i' | 'I' | 'l' | 'L' | 'f' => some 4
  | 'q' | 'Q' | 'd' => some 8
  | _ => Option.none

/-- `struct.calcsize(c)` for a single format character in native mode on
x86-64 Linux (LP64: `l`, `L`, `q`, `Q`, `n`, `N`, `P`, `d` are 8 bytes). -/
def nativeSize : Char → Option Nat
  | 'x' | 'c' | 'b' | 'B' | '?' | 's' | 'p' => some 1
  | 'h' | 'H' | 'e' => some 2
  | 'i' | 'I' | 'f' => some 4
  | 'l' | 'L' | 'q' | 'Q' | 'd' | 'n' | 'N' | 'P' => some 8
  | _ => Option.none

/-- The value(s) `struct.unpack_from('!' + c, ...)` yields from the raw bytes
`bs` of the field (`'x'` yields no value; floats keep their raw bytes). -/
def stdDecode1 (c : Char) (bs : List Nat) : List Value :=
  match c with
  | 'x' => []
  | 'c' | 's' => [Value.bytes bs]
  | 'p' => [Value.bytes []]
  | 'b' => [Value.int (toSigned 1 (beNat bs))]
  | 'B' => [Value.int (beNat bs)]
  | '?' => [Value.bool (beNat bs != 0)]
  | 'h' => [Value.int (toSigned 2 (beNat bs))]
  | 'H' => [Value.int (beNat bs)]
  | 'i' | 'l' => [Value.int (toSigned 4 (beNat bs))]
  | 'I' | 'L' => [Value.int (beNat bs)]
  | 'q' => [Value.int (toSigned 8 (beNat bs))]
  | 'Q' => [Value.int (beNat bs)]
  | 'e' | 'f' | 'd' => [Value.float bs]
  | _ => []

/-- `struct.unpack_from('!' + c, buff, offset)`: errors on an unknown format
character or a buffer with fewer than `stdSize c` bytes left at `offset`. -/
def stdUnpackFrom1 (c : Char) (buff : List Nat) (offset : Nat) :
    Except String (List Value) :=
  match stdSize c with
  | Option.none => .error "struct.error: bad char in struct format"
  | some s =>
    if offset + s ≤ buff.length then
      .ok (stdDecode1 c (sliceBytes buff offset s))
    else
      .error "struct.error: unpack_from requires a buffer"

/-- The loop of `unpack_varint_from`, running over the bytes from the current
offset on: `size += 1; i = ord(buff[offset:offset+1]); result |= (i & 0x7f)
<< shift; shift += 7` until a byte with a clear high bit.  Running off the
end of the buffer is `ord('')`, a `TypeError`. -/
def unpackVarintGo : List Nat → Nat → Nat → Nat → Except String (Nat × Nat)
  | [], _, _, _ => .error "TypeError: ord() expected a character"
  | b :: rest, size, shift, result =>
    let size := size + 1
    let result := result ||| ((b &&& 0x7f) <<< shift)
    if b &&& 0x80 = 0 then .ok (size, result)
    else unpackVarintGo rest size (shift + 7) result

/-- `unpack_varint_from(buff, offset)` returning `(size, result)`. -/
def unpack_varint_from (buff : List Nat) (offset : Nat) :
    Except String (Nat × Nat) :=
  unpackVarintGo (buff.drop offset) 0 0 0

/-- `_unpack_array`'s post-processing: with a single-character inner format the
per-repetition tuples are flattened (`itertools.chain.from_iterable`),
otherwise each repetition stays one tuple. -/
def arrayPost (fmt : List Char) (output : List (List Value)) : List Value :=
  if fmt.length = 1 then output.flatten else output.map Value.seq

mutual

/-- The character loop of `_unpack`: `rem` is the unscanned format suffix,
`afmt` the accumulating array sub-format (`array_fmt`, `Option.none` when no
`[` is open), `items` the accumulated output tuple, `offset` the cursor. -/
def unpackGo (buff : List Nat) (rem : List Char) (afmt : Option (List Char))
    (items : List Value) (offset : Nat) : Except String (List Value × Nat) :=
  match rem, afmt with
  | [], _ => .ok (items, offset)
  | ch :: rem', some a =>
    if ch = ']' ∧ a.count '[' = a.count ']' then
      -- array format done: read the `'!i'` count and unpack the array
      if offset + 4 ≤ buff.length then
        let count := toSigned 4 (beNat (sliceBytes buff offset 4))
        match _unpack_array a buff (offset + 4) count with
        | .error e => .error e
        | .ok (arrayItem, offset') =>
          unpackGo buff rem' Option.none (items ++ [Value.seq arrayItem]) offset'
      else .error "struct.error: unpack_from requires a buffer"
    else
      -- not done yet, append to the ongoing array format
      unpackGo buff rem' (some (a ++ [ch])) items offset
  | ch :: rem', Option.none =>
    if ch = '[' then
      unpackGo buff rem' (some []) items offset
    else if ch = 'V' then
      match unpack_varint_from buff offset with
      | .error e => .error e
      | .ok (len_, unpacked) =>
        unpackGo buff rem' Option.none (items ++ [Value.int unpacked]) (offset + len_)
    else if ch = 'S' ∨ ch = 'Y' then
      -- length prefix `'!h'` for `S`, `'!i'` for `Y`, big-endian signed
      let w := if ch = 'S' then 2 else 4
      if offset + w ≤ buff.length then
        let len_ := toSigned w (beNat (sliceBytes buff offset w))
        if len_ = -1 then
          unpackGo buff rem' Option.none (items ++ [Value.none]) (offset + w)
        else if len_ < 0 then
          -- `'%ds' % len_` with a negative count is rejected by struct
          .error "struct.error: bad char in struct format"
        else if offset + w + len_.toNat ≤ buff.length then
          unpackGo buff rem' Option.none
            (items ++ [Value.bytes (sliceBytes buff (offset + w) len_.toNat)])
            (offset + w + len_.toNat)
        else .error "struct.error: unpack_from requires a buffer"
      else .error "struct.error: unpack_from requires a buffer"
    else
      match stdUnpackFrom1 ch buff offset with
      | .error e => .error e
      | .ok vs =>
        -- offset advances by `struct.calcsize(ch)`, the *native* size
        unpackGo buff rem' Option.none (items ++ vs) (offset + (nativeSize ch).getD 0)
termination_by (rem.length + (afmt.map List.length).getD 0, 2, rem.length)
decreasing_by all_goals simp_wf <;> simp [Prod.lex_def] <;> omega

/-- `_unpack(fmt, buff, offset, count)`; the `count` parameter is dead in the
source (overwritten before any use) and is likewise unused here. -/
def _unpack (fmt : List Char) (buff : List Nat) (offset : Nat) (count : Int) :
    Except String (List Value × Nat) :=
  unpackGo buff fmt Option.none [] offset
termination_by (fmt.length, 3, 0)
decreasing_by all_goals simp_wf <;> simp [Prod.lex_def] <;> omega

/-- `_unpack_array(fmt, buff, offset, count)`: `count` repetitions of
`_unpack fmt` (none when `count ≤ 0`, as `range` of a negative is empty),
then the single-character flattening rule. -/
def _unpack_array (fmt : List Char) (buff : List Nat) (offset : Nat)
    (count : Int) : Except String (List Value × Nat) :=
  match unpackArrayGo fmt buff offset count.toNat with
  | .error e => .error e
  | .ok (output, offset') => .ok (arrayPost fmt output, offset')
termination_by (fmt.length + 1, 1, 0)
decreasing_by all_goals simp_wf <;> simp [Prod.lex_def] <;> omega

/-- The `for i in range(count)` loop of `_unpack_array`, collecting the raw
per-repetition tuples. -/
def unpackArrayGo (fmt : List Char) (buff : List Nat) (offset : Nat) (n : Nat) :
    Except String (List (List Value) × Nat) :=
  match n with
  | 0 => .ok ([], offset)
  | m + 1 =>
    match _unpack fmt buff offset 1 with
    | .error e => .error e
    | .ok (item, offset') =>
      match unpackArrayGo fmt buff offset' m with
      | .error e => .error e
      | .ok (output, offset'') => .ok (item :: output, offset'')
termination_by (fmt.length + 1, 0, n)
decreasing_by all_goals simp_wf <;> simp [Prod.lex_def] <;> omega

end

/-- `fmt.replace(' ', '')`: the format characters with spaces removed. -/
def stripSpaces (fmt : String) : List Char :=
  fmt.data.filter (fun c => c != ' ')

/-- Drop a leading byte-order marker (`fmt[0] in '!><'`); network ordering is
assumed anyway. -/
def stripOrder (f : List Char) : List Char :=
  match f with
  | c0 :: rest => if c0 = '!' ∨ c0 = '>' ∨ c0 = '<' then rest else f
  | [] => []

/-- `unpack_from(fmt, buff, offset)`: strip spaces, strip one leading byte
order marker, run `_unpack` with count 1, and unwrap a whole-message array
(`fmt[0] == '[' and len(output) == 1`); indexing `fmt[0]` on an emptied
format string is an `IndexError`. -/
def unpack_from (fmt : String) (buff : List Nat) (offset : Nat) :
    Except String Value :=
  match stripSpaces fmt with
  | [] => .error "IndexError: string index out of range"
  | c0 :: rest =>
    let f1 := stripOrder (c0 :: rest)
    match _unpack f1 buff offset 1 with
    | .error e => .error e
    | .ok (output, _) =>
      match f1, output with
      | [], _ => .error "IndexError: string index out of range"
      | '[' :: _, [v] => .ok v
      | _, _ => .ok (Value.seq output)

/-! ### The encode side: a model of `struct.pack_into` and the varint packer -/

/-- Native byte order of the platform (CPython `struct`'s `'@'` mode); x86 is
little-endian, network order is big-endian. -/
inductive ByteOrder where
  | little : ByteOrder
  | big : ByteOrder
deriving DecidableEq

/-- A positional argument handed to the encoder: a Python `int`, `bool`
(a subclass of `int`), or byte string. -/
inductive PackArg where
  | int : Int → PackArg
  | bool : Bool → PackArg
  | bytes : List Nat → PackArg
deriving DecidableEq

/-- The numeric value of an argument used by an integer format (`bool` is an
`int` in Python); `Option.none` for a byte string. -/
def argInt : PackArg → Option Int
  | .int i => some i
  | .bool b => some (if b then 1 else 0)
  | .bytes _ => Option.none

/-- Python truthiness of an argument (used by the `'?'` format). -/
def truthy : PackArg → Bool
  | .int i => i != 0
  | .bool b => b
  | .bytes bs => !bs.isEmpty

/-- A `struct` format mode: byte order, whether native sizes apply, and
whether native alignment applies. -/
structure StructMode where
  order : ByteOrder
  useNative : Bool
  aligned : Bool

/-- Strip an optional leading byte-order character, as `struct` does:
`'@'`/none select native order, sizes and alignment; `'='` native order with
standard sizes; `'<'`/`'>'`/`'!'` fix the order with standard sizes. -/
def parseStructMode (nativeOrd : ByteOrder) (fmt : List Char) :
    StructMode × List Char :=
  match fmt with
  | '@' :: r => (⟨nativeOrd, true, true⟩, r)
  | '=' :: r => (⟨nativeOrd, false, false⟩, r)
  | '<' :: r => (⟨ByteOrder.little, false, false⟩, r)
  | '>' :: r => (⟨ByteOrder.big, false, false⟩, r)
  | '!' :: r => (⟨ByteOrder.big, false, false⟩, r)
  | r => (⟨nativeOrd, true, true⟩, r)

/-- Split a `struct` format body into `(repeat-count, format-char)` tokens;
whitespace between tokens is ignored, a count must directly precede its
format character, and a trailing count is an error. -/
def tokenizeStruct : List Char → Option Nat → Except String (List (Option Nat × Char))
  | [], Option.none => .ok []
  | [], some _ => .error "struct.error: repeat count given without format"
  | c :: rest, acc =>
    if c.isDigit then
      tokenizeStruct rest (some ((acc.getD 0) * 10 + (c.toNat - 48)))
    else if c = ' ' then
      match acc with
      | Option.none => tokenizeStruct rest Option.none
      | some _ => .error "struct.error: bad char in struct format"
    else
      match tokenizeStruct rest Option.none with
      | .error e => .error e
      | .ok ts => .ok ((acc, c) :: ts)

/-- The field size of a format character under a mode's size convention. -/
def modeSize (useNative : Bool) (c : Char) : Option Nat :=
  if useNative then nativeSize c else stdSize c

/-- `w` bytes of `v` in little-endian order. -/
def natLEBytes : Nat → Nat → List Nat
  | 0, _ => []
  | w + 1, v => v % 256 :: natLEBytes w (v / 256)

/-- The `w`-byte two's-complement encoding of `v` in the given byte order. -/
def intFieldBytes (ord : ByteOrder) (w : Nat) (v : Int) : List Nat :=
  let u := (v.emod (2 ^ (8 * w))).toNat
  match ord with
  | .little => natLEBytes w u
  | .big => (natLEBytes w u).reverse

/-- Signed integer format characters (range `-2^(8w-1) .. 2^(8w-1)-1`). -/
def isSignedFmt (c : Char) : Bool :=
  c = 'b' ∨ c = 'h' ∨ c = 'i' ∨ c = 'l' ∨ c = 'q' ∨ c = 'n'

/-- Pack one scalar field (everything except `x`, `s`, `p`): `c` is one byte
string of length 1, `?` a truthiness byte, integer formats are range-checked
two's-complement fields, floats are not modelled, anything else is rejected. -/
def packScalar (ord : ByteOrder) (useNative : Bool) (c : Char) (a : PackArg) :
    Except String (List Nat) :=
  match c with
  | 'c' =>
    match a with
    | .bytes [b] => .ok [b % 256]
    | _ => .error "struct.error: char format requires a bytes object of length 1"
  | '?' => .ok [if truthy a then 1 else 0]
  | 'e' | 'f' | 'd' => .error "float packing is not modelled"
  | _ =>
    match modeSize useNative c with
    | Option.none => .error "struct.error: bad char in struct format"
    | some s =>
      match argInt a with
      | Option.none => .error "struct.error: required argument is not an integer"
      | some v =>
        if isSignedFmt c then
          if -(2 ^ (8 * s - 1) : Int) ≤ v ∧ v < 2 ^ (8 * s - 1) then
            .ok (intFieldBytes ord s v)
          else .error "struct.error: argument out of range"
        else
          if 0 ≤ v ∧ v < (2 ^ (8 * s) : Int) then
            .ok (intFieldBytes ord s v)
          else .error "struct.error: argument out of range"

/-- Pack `n` consecutive scalar fields of format `c`, consuming one argument
each; returns the emitted bytes and the remaining arguments. -/
def packScalars (ord : ByteOrder) (useNative : Bool) (c : Char) :
    Nat → List PackArg → Except String (List Nat × List PackArg)
  | 0, args => .ok ([], args)
  | n + 1, args =>
    match args with
    | [] => .error "struct.error: pack expected more items for packing"
    | a :: args' =>
      match packScalar ord useNative c a with
      | .error e => .error e
      | .ok bs =>
        match packScalars ord useNative c n args' with
        | .error e => .error e
        | .ok (bs', rest) => .ok (bs ++ bs', rest)

/-- A byte string truncated or zero-padded to exactly `n` bytes (the wire
shape of an `'s'` field with count `n`). -/
def padTrunc (bs : List Nat) (n : Nat) : List Nat :=
  (bs.take n).map (· % 256) ++ List.replicate (n - bs.length) 0

/-- The `n`-byte wire shape of a `'p'` (Pascal string) field. -/
def pascalBytes (bs : List Nat) (n : Nat) : List Nat :=
  match n with
  | 0 => []
  | m + 1 => min (min bs.length m) 255 :: padTrunc bs m

/-- The token loop of `struct.pack`: emits native-alignment padding when the
mode asks for it, then the token's field bytes; leftover arguments at the end
are an argument-count error (as is running out of them on the way). -/
def packTokensGo (mode : StructMode) :
    List (Option Nat × Char) → List PackArg → List Nat → Except String (List Nat)
  | [], args, acc =>
    if args.isEmpty then .ok acc
    else .error "struct.error: pack expected fewer items for packing"
  | (cnt, c) :: rest, args, acc =>
    let al := if mode.aligned then (modeSize mode.useNative c).getD 1 else 1
    let acc := acc ++ List.replicate ((al - acc.length % al) % al) 0
    match c with
    | 'x' => packTokensGo mode rest args (acc ++ List.replicate (cnt.getD 1) 0)
    | 's' =>
      match args with
      | [] => .error "struct.error: pack expected more items for packing"
      | .bytes bs :: args' => packTokensGo mode rest args' (acc ++ padTrunc bs (cnt.getD 1))
      | _ :: _ => .error "struct.error: argument for 's' must be a bytes object"
    | 'p' =>
      match args with
      | [] => .error "struct.error: pack expected more items for packing"
      | .bytes bs :: args' => packTokensGo mode rest args' (acc ++ pascalBytes bs (cnt.getD 1))
      | _ :: _ => .error "struct.error: argument for 'p' must be a bytes object"
    | _ =>
      -- `struct` validates format characters when compiling the format
      match modeSize mode.useNative c with
      | Option.none => .error "struct.error: bad char in struct format"
      | some _ =>
        match packScalars mode.order mode.useNative c (cnt.getD 1) args with
        | .error e => .error e
        | .ok (bs, args') => packTokensGo mode rest args' (acc ++ bs)

/-- The position loop of `struct.calcsize` over the same tokens: alignment
padding as in packing, then `n` bytes for `x`/`s`/`p` and `n * size` for the
scalar formats. -/
def calcsizeTokens (useNative aligned : Bool) :
    List (Option Nat × Char) → Nat → Except String Nat
  | [], pos => .ok pos
  | (cnt, c) :: rest, pos =>
    let al := if aligned then (modeSize useNative c).getD 1 else 1
    let pos := pos + (al - pos % al) % al
    match c with
    | 'x' => calcsizeTokens useNative aligned rest (pos + cnt.getD 1)
    | 's' => calcsizeTokens useNative aligned rest (pos + cnt.getD 1)
    | 'p' => calcsizeTokens useNative aligned rest (pos + cnt.getD 1)
    | _ =>
      match modeSize useNative c with
      | Option.none => .error "struct.error: bad char in struct format"
      | some s => calcsizeTokens useNative aligned rest (pos + cnt.getD 1 * s)

/-- `struct.pack(fmt, *args)`: the packed byte string. -/
def struct_pack_bytes (nativeOrd : ByteOrder) (fmt : List Char)
    (args : List PackArg) : Except String (List Nat) :=
  let (mode, body) := parseStructMode nativeOrd fmt
  match tokenizeStruct body Option.none with
  | .error e => .error e
  | .ok toks => packTokensGo mode toks args []

/-- `struct.calcsize(fmt)`. -/
def struct_calcsize (nativeOrd : ByteOrder) (fmt : List Char) :
    Except String Nat :=
  let (mode, body) := parseStructMode nativeOrd fmt
  match tokenizeStruct body Option.none with
  | .error e => .error e
  | .ok toks => calcsizeTokens mode.useNative mode.aligned toks 0

/-- Overwrite `buff` at `offset` with the bytes `bs` (callers ensure the
write fits). -/
def writeAt (buff : List Nat) (offset : Nat) (bs : List Nat) : List Nat :=
  buff.take offset ++ bs ++ buff.drop (offset + bs.length)

/-- `struct.pack_into(fmt, buff, offset, *args)`: packs and writes in place;
a write past the end of the buffer is an error. -/
def struct_pack_into (nativeOrd : ByteOrder) (fmt : List Char)
    (buff : List Nat) (offset : Nat) (args : List PackArg) :
    Except String (List Nat) :=
  match struct_pack_bytes nativeOrd fmt args with
  | .error e => .error e
  | .ok bs =>
    if offset + bs.length ≤ buff.length then .ok (writeAt buff offset bs)
    else .error "struct.error: pack_into requires a buffer"

/-- The loop of `pack_varint_into`, with an explicit iteration budget:
`towrite = val & 0x7f; val >>= 7` (Python's `&`/`>>` on a possibly negative
`int` are floor-convention, i.e. `emod`/`ediv` by 128), then write
`towrite | 0x80` and continue while `val` is non-zero, else write `towrite`
and stop.  Each iteration writes via `struct.pack_into('c', ...)`. -/
def packVarintGo (nativeOrd : ByteOrder) (buff : List Nat) (offset : Nat) :
    Nat → Int → Except String (Nat × List Nat)
  | 0, _ => .error "pykafka: pack_varint loop does not exit"
  | fuel + 1, val =>
    let towrite := (val % 128).toNat
    let val' := val / 128
    if val' = 0 then
      match struct_pack_into nativeOrd ['c'] buff offset [.bytes [towrite]] with
      | .error e => .error e
      | .ok buff' => .ok (1, buff')
    else
      match struct_pack_into nativeOrd ['c'] buff offset [.bytes [towrite ||| 0x80]] with
      | .error e => .error e
      | .ok buff' =>
        match packVarintGo nativeOrd buff' (offset + 1) fuel val' with
        | .error e => .error e
        | .ok (sz, buff'') => .ok (sz + 1, buff'')

/-- `pack_varint_into(buff, offset, val)`, returning the byte count and the
updated buffer.  The budget `val.toNat + 1` is an upper bound on the number
of loop iterations: for a non-negative value the quotient strictly decreases
each round (proved below), and for a negative value the loop can only exit
through an exception. -/
def pack_varint_into (nativeOrd : ByteOrder) (buff : List Nat) (offset : Nat)
    (val : Int) : Except String (Nat × List Nat) :=
  packVarintGo nativeOrd buff offset (val.toNat + 1) val

/-- The character class of the regex `NOARG_STRUCT_FMTS =
re.compile(r'[^xcbB\?hHiIlLqQfdspP]')`: `re.sub(NOARG_STRUCT_FMTS, '', s)`
deletes every character *not* in this list, so exactly these survive into
`args_only_fmt` — including the pad byte `'x'`. -/
def NOARG_STRUCT_FMTS : List Char :=
  ['x', 'c', 'b', 'B', '?', 'h', 'H', 'i', 'I', 'l', 'L', 'q', 'Q', 'f', 'd', 's', 'p', 'P']

/-- `[p for p in re.split('(V)', fmt) if p]`: alternating fixed-width runs
and `"V"` separators, with empty pieces dropped; `acc` holds the current run
reversed. -/
def splitVGo : List Char → List Char → List (List Char)
  | [], acc => if acc.isEmpty then [] else [acc.reverse]
  | c :: rest, acc =>
    if c = 'V' then
      (if acc.isEmpty then [] else [acc.reverse]) ++ ['V'] :: splitVGo rest []
    else splitVGo rest (c :: acc)

/-- The split of a format string on the varint marker. -/
def splitV (fmt : List Char) : List (List Char) :=
  splitVGo fmt []

/-- The `for i, fmt_part in enumerate(parts)` loop of `pack_into`'s varint
path: a fixed-width run pops one argument per character of
`re.sub(NOARG_STRUCT_FMTS, '', part)` and delegates to the fixed-width
packer (re-prefixing `'!'` when the whole format began with it and this is
not the first run); a `"V"` part pops one argument for the varint packer.
Popping from an exhausted argument list is an `IndexError`. -/
def packParts (nativeOrd : ByteOrder) (fmt : List Char) :
    List (List Char) → Nat → List Nat → Nat → List PackArg → Nat →
    Except String (Nat × List Nat)
  | [], _, buff, _, _, size => .ok (size, buff)
  | part :: rest, i, buff, offset, args, size =>
    if part = ['V'] then
      match args with
      | [] => .error "IndexError: pop from empty list"
      | a :: args' =>
        match argInt a with
        | Option.none => .error "TypeError: unsupported operand type for &"
        | some v =>
          match pack_varint_into nativeOrd buff offset v with
          | .error e => .error e
          | .ok (fmtsize, buff') =>
            packParts nativeOrd fmt rest (i + 1) buff' (offset + fmtsize) args' (size + fmtsize)
    else
      let args_only := part.filter (fun c => NOARG_STRUCT_FMTS.contains c)
      if args_only.length ≤ args.length then
        let part_args := args.take args_only.length
        let args' := args.drop args_only.length
        let prefixed := if fmt.head? = some '!' ∧ i ≠ 0 then '!' :: part else part
        match struct_pack_into nativeOrd prefixed buff offset part_args with
        | .error e => .error e
        | .ok buff' =>
          match struct_calcsize nativeOrd prefixed with
          | .error e => .error e
          | .ok fmtsize =>
            packParts nativeOrd fmt rest (i + 1) buff' (offset + fmtsize) args' (size + fmtsize)
      else .error "IndexError: pop from empty list"

/-- `pack_into(fmt, buff, offset, *args)`.  On the varint path the return
value is the accumulated `size` (modelled `some size`); on the fast path the
source returns `struct.pack_into(...)`, which is Python `None` (modelled
`Option.none`).  The updated buffer is returned alongside. -/
def pack_into (nativeOrd : ByteOrder) (fmt : String) (buff : List Nat)
    (offset : Nat) (args : List PackArg) : Except String (Option Nat × List Nat) :=
  if 'V' ∈ fmt.data then
    match packParts nativeOrd fmt.data (splitV fmt.data) 0 buff offset args 0 with
    | .error e => .error e
    | .ok (size, buff') => .ok (some size, buff')
  else
    match struct_pack_into nativeOrd fmt.data buff offset args with
    | .error e => .error e
    | .ok buff' => .ok (Option.none, buff')

/-- Encode `v` with `pack_varint_into` into a fresh 10-byte buffer at offset
0, then decode with `unpack_varint_from` at offset 0: the pair of byte counts
and the decoded value. -/
def rt (ord : ByteOrder) (v : Int) : Except String (Nat × Nat × Int) := do
  let (n, b) ← pack_varint_into ord (List.replicate 10 0) 0 v
  let r ← unpack_varint_from b 0
  pure (n, r.1, (r.2 : Int))

/-! ### Claim theorems -/

/-- C10: `unpack_from` fails (rather than returning an empty result) on every
format string consisting only of spaces (including the empty string): after
stripping spaces the source unconditionally indexes `fmt[0]`, an
`IndexError` on an empty string. -/
theorem unpack_from_empty_fmt_errors (fmt : String) (buff : List Nat)
    (offset : Nat) (h : ∀ c ∈ fmt.data, c = ' ') :
    isErr (unpack_from fmt buff offset) = true := by
  have hs : stripSpaces fmt = [] := by
    simp only [stripSpaces, List.filter_eq_nil_iff]
    intro c hc
    simp [h c hc]
  simp [unpack_from, hs, isErr]

/-- Witness for C10 at the concrete inputs `"   "` and `""`. -/
theorem unpack_from_empty_fmt_errors_witness :
    (∀ c ∈ "   ".toList, c = ' ') ∧
      isErr (unpack_from "   " [1, 2, 3] 0) = true ∧
      isErr (unpack_from "" [] 5) = true :=
  ⟨by decide,
   unpack_from_empty_fmt_errors "   " [1, 2, 3] 0 (by decide),
   unpack_from_empty_fmt_errors "" [] 5 (by decide)⟩

/-- C4: varint round-trip.  For each `v` in
`{0, 1, 127, 128, 300, 2^32-1, 2^63-1}`, `pack_varint_into` into a fresh
buffer at offset 0 followed by `unpack_varint_from` at offset 0 yields
exactly `(bytes_written, v)`; and encoding 0 writes exactly one zero byte
(the rest of the buffer untouched). -/
theorem varint_roundtrip (ord : ByteOrder) :
    (rt ord 0 = Except.ok (1, 1, 0) ∧
      rt ord 1 = Except.ok (1, 1, 1) ∧
      rt ord 127 = Except.ok (1, 1, 127) ∧
      rt ord 128 = Except.ok (2, 2, 128) ∧
      rt ord 300 = Except.ok (2, 2, 300) ∧
      rt ord (2 ^ 32 - 1) = Except.ok (5, 5, 2 ^ 32 - 1) ∧
      rt ord (2 ^ 63 - 1) = Except.ok (9, 9, 2 ^ 63 - 1)) ∧
      pack_varint_into ord (List.replicate 10 0) 0 0 =
        .ok (1, 0 :: List.replicate 9 0) := by
  cases ord <;> exact ⟨⟨by decide, by decide, by decide, by decide, by decide,
    by decide, by decide⟩, by decide⟩

/-- C1, counterexample: on the fast path (no `'V'` in the format) `pack_into`
returns `struct.pack_into(...)` itself, and `struct.pack_into` returns
Python `None` — not the number of bytes written (here 4). -/
theorem pack_into_fast_path_returns_none :
    pack_into ByteOrder.little "i" (List.replicate 4 0) 0 [.int 1] =
      .ok (Option.none, [1, 0, 0, 0]) ∧
      ∀ n : Nat, (Option.none : Option Nat) ≠ some n :=
  ⟨by decide, by simp⟩

/-- C2: the regex `NOARG_STRUCT_FMTS` keeps the pad code `'x'` in
`args_only_fmt` (second conjunct), so the fixed-width run `"x"` of the
format `"xV"` pops one positional argument and hands it to the underlying
packer, which rejects it (a pad slot consumes no argument): `pack_into`
raises instead of packing one pad byte and one varint as the claim
describes. -/
theorem pack_into_pad_run_pops_argument :
    pack_into ByteOrder.little "xV" (List.replicate 4 0) 0 [.int 5] =
      .error "struct.error: pack expected fewer items for packing" ∧
      (['x'].filter (fun c => NOARG_STRUCT_FMTS.contains c)).length = 1 := by
  exact ⟨by decide, by decide⟩

/-- C3, counterexample: with format `"iVi"` (no byte-order marker) the
fixed-width runs are delegated to the underlying packer in *native* mode; on
a little-endian platform the first four bytes are `[1, 0, 0, 0]`, not the
big-endian `[0, 0, 0, 1]` the claim requires. -/
theorem pack_into_unmarked_is_native_order :
    pack_into ByteOrder.little "iVi" (List.replicate 10 0) 0
        [.int 1, .int 300, .int 2] =
      .ok (some 10, [1, 0, 0, 0, 172, 2, 2, 0, 0, 0]) ∧
      (1 : Nat) :: 0 :: 0 :: 0 :: [] ≠ 0 :: 0 :: 0 :: 1 :: [] := by
  exact ⟨by decide, by decide⟩

/-! ### Byte-order independence of `'!'`-marked formats -/

theorem parseStructMode_bang (o : ByteOrder) (r : List Char) :
    parseStructMode o ('!' :: r) = (⟨ByteOrder.big, false, false⟩, r) := rfl

theorem struct_pack_into_bang (o1 o2 : ByteOrder) (p : List Char)
    (buff : List Nat) (off : Nat) (args : List PackArg) :
    struct_pack_into o1 ('!' :: p) buff off args =
      struct_pack_into o2 ('!' :: p) buff off args := by
  simp [struct_pack_into, struct_pack_bytes, parseStructMode_bang]

theorem struct_calcsize_bang (o1 o2 : ByteOrder) (p : List Char) :
    struct_calcsize o1 ('!' :: p) = struct_calcsize o2 ('!' :: p) := by
  simp [struct_calcsize, parseStructMode_bang]

/-- Packing a single `'c'` field (the varint byte writes) evaluates without
consulting the byte order. -/
theorem struct_pack_into_c_bytes (o : ByteOrder) (buff : List Nat)
    (off b : Nat) :
    struct_pack_into o ['c'] buff off [.bytes [b]] =
      if off + 1 ≤ buff.length then .ok (writeAt buff off [b % 256])
      else .error "struct.error: pack_into requires a buffer" := by
  cases o <;> rfl

theorem packVarintGo_ord (o1 o2 : ByteOrder) (fuel : Nat) :
    ∀ (buff : List Nat) (off : Nat) (val : Int),
      packVarintGo o1 buff off fuel val = packVarintGo o2 buff off fuel val := by
  induction fuel with
  | zero => intro buff off val; rfl
  | succ n ih =>
    intro buff off val
    simp only [packVarintGo, struct_pack_into_c_bytes]
    split
    · rfl
    · split
      · rfl
      · rw [ih]

theorem pack_varint_into_ord (o1 o2 : ByteOrder) (buff : List Nat)
    (off : Nat) (val : Int) :
    pack_varint_into o1 buff off val = pack_varint_into o2 buff off val :=
  packVarintGo_ord o1 o2 _ buff off val

/-- The first piece emitted by `splitVGo` with a pending run `acc` starts
with the characters of `acc` (in reverse accumulation order). -/
theorem splitVGo_first (r : List Char) :
    ∀ acc : List Char, acc ≠ [] →
      ∃ ext tail, splitVGo r acc = (acc.reverse ++ ext) :: tail := by
  induction r with
  | nil =>
    intro acc h
    refine ⟨[], [], ?_⟩
    simp [splitVGo, h]
  | cons c rest ih =>
    intro acc h
    by_cases hc : c = 'V'
    · refine ⟨[], ['V'] :: splitVGo rest [], ?_⟩
      simp [splitVGo, hc, h]
    · obtain ⟨ext, tail, htail⟩ := ih (c :: acc) (by simp)
      refine ⟨c :: ext, tail, ?_⟩
      simp [splitVGo, hc, htail]

/-- `packParts` does not depend on the platform byte order when the overall
format begins with `'!'` and (for the first part) the part itself carries the
marker or is a varint slot: every fixed-width run is then packed in an
explicitly big-endian format. -/
theorem packParts_ord (o1 o2 : ByteOrder) (fmt : List Char)
    (hf : fmt.head? = some '!') :
    ∀ (parts : List (List Char)) (i : Nat) (buff : List Nat) (off : Nat)
      (args : List PackArg) (size : Nat),
      (i = 0 → ∀ p tail, parts = p :: tail → p.head? = some '!' ∨ p = ['V']) →
      packParts o1 fmt parts i buff off args size =
        packParts o2 fmt parts i buff off args size := by
  intro parts
  induction parts with
  | nil => intro i buff off args size _; rfl
  | cons p rest ih =>
    intro i buff off args size hinv
    simp only [packParts]
    split_ifs with hv hlen hcond
    · cases args with
      | nil => rfl
      | cons a args' =>
        cases ha : argInt a with
        | none => simp only [ha]
        | some v =>
          simp only [ha, pack_varint_into_ord o1 o2 buff off v]
          cases h2 : pack_varint_into o2 buff off v with
          | error e => simp only [h2]
          | ok r =>
            simp only [h2]
            exact ih (i + 1) r.2 (off + r.1) args' (size + r.1) (by omega)
    · -- the re-prefixed case: `fmt` begins with `'!'` and `i ≠ 0`
      rw [struct_pack_into_bang o1 o2, struct_calcsize_bang o1 o2]
      cases h2 : struct_pack_into o2 ('!' :: p) buff off
          (args.take (p.filter (fun c => NOARG_STRUCT_FMTS.contains c)).length) with
      | error e => simp only [h2]
      | ok buff' =>
        simp only [h2]
        cases h3 : struct_calcsize o2 ('!' :: p) with
        | error e => simp only [h3]
        | ok fmtsize =>
          simp only [h3]
          exact ih (i + 1) buff' (off + fmtsize) _ (size + fmtsize) (by omega)
    · -- the first part: it must itself start with `'!'`
      have hi : i = 0 := by
        by_contra hne
        exact hcond ⟨hf, hne⟩
      have hp : p.head? = some '!' := by
        rcases hinv hi p rest rfl with h | h
        · exact h
        · exact absurd h hv
      obtain ⟨p', rfl⟩ : ∃ p', p = '!' :: p' := by
        cases p with
        | nil => simp at hp
        | cons c cs =>
          refine ⟨cs, ?_⟩
          have hc : c = '!' := by simpa using hp
          rw [hc]
      rw [struct_pack_into_bang o1 o2, struct_calcsize_bang o1 o2]
      cases h2 : struct_pack_into o2 ('!' :: p') buff off
          (args.take (('!' :: p').filter (fun c => NOARG_STRUCT_FMTS.contains c)).length) with
      | error e => simp only [h2]
      | ok buff' =>
        simp only [h2]
        cases h3 : struct_calcsize o2 ('!' :: p') with
        | error e => simp only [h3]
        | ok fmtsize =>
          simp only [h3]
          exact ih (i + 1) buff' (off + fmtsize) _ (size + fmtsize) (by omega)
    · rfl

/-- `pack_into` is independent of the platform byte order whenever the format
string begins with the network marker `'!'` (both the fast path and the
varint path then pack every run in an explicitly big-endian format). -/
theorem pack_into_ord (o1 o2 : ByteOrder) (fmt : String) (buff : List Nat)
    (off : Nat) (args : List PackArg) (h : fmt.data.head? = some '!') :
    pack_into o1 fmt buff off args = pack_into o2 fmt buff off args := by
  obtain ⟨r, hr⟩ : ∃ r, fmt.data = '!' :: r := by
    cases hd : fmt.data with
    | nil => rw [hd] at h; simp at h
    | cons c cs =>
      rw [hd] at h
      simp only [List.head?_cons, Option.some.injEq] at h
      exact ⟨cs, by rw [h]⟩
  simp only [pack_into]
  by_cases hv : 'V' ∈ fmt.data
  · simp only [if_pos hv]
    have hfirst : ∀ p tail, splitV fmt.data = p :: tail →
        p.head? = some '!' ∨ p = ['V'] := by
      intro p tail hsp
      rw [hr] at hsp
      have hstep : splitV ('!' :: r) = splitVGo r ['!'] := by
        simp [splitV, splitVGo]
      rw [hstep] at hsp
      obtain ⟨ext, tail', htail⟩ := splitVGo_first r ['!'] (by simp)
      rw [htail] at hsp
      injection hsp with h1 h2
      left
      rw [← h1]
      simp
    rw [packParts_ord o1 o2 fmt.data h (splitV fmt.data) 0 buff off args 0
      (fun _ => hfirst)]
  · simp only [if_neg hv]
    rw [hr, struct_pack_into_bang o1 o2]

/-- C3 (amended): with the network-order marker present — format `"!iVi"` —
`pack_into` with arguments `[1, 300, 2]` writes exactly 10 bytes: big-endian
`1`, the varint `0xAC 0x02`, big-endian `2`, and returns 10; and whenever
the format string begins with `'!'`, the result of `pack_into` is the same
on a little-endian and a big-endian platform (every independently packed run
is big-endian).  Without a marker the runs are packed in the platform's
native order (see the counterexample). -/
theorem pack_into_marked_big_endian :
    (∀ ord, pack_into ord "!iVi" (List.replicate 10 0) 0
        [.int 1, .int 300, .int 2] =
        .ok (some 10, [0, 0, 0, 1, 172, 2, 0, 0, 0, 2])) ∧
    (∀ (o1 o2 : ByteOrder) (fmt : String) (buff : List Nat) (off : Nat)
        (args : List PackArg), fmt.data.head? = some '!' →
        pack_into o1 fmt buff off args = pack_into o2 fmt buff off args) :=
  ⟨fun ord => by cases ord <;> decide,
   fun o1 o2 fmt buff off args h => pack_into_ord o1 o2 fmt buff off args h⟩

/-- Witness for C3's amended theorem at concrete inputs. -/
theorem pack_into_marked_big_endian_witness :
    ("!i".data.head? = some '!') ∧
      pack_into ByteOrder.little "!i" (List.replicate 4 0) 0 [.int 7] =
        pack_into ByteOrder.big "!i" (List.replicate 4 0) 0 [.int 7] :=
  ⟨by decide,
   pack_into_marked_big_endian.2 ByteOrder.little ByteOrder.big "!i"
     (List.replicate 4 0) 0 [.int 7] (by decide)⟩

/-! ### Write-confinement of the encode pipeline -/

theorem natLEBytes_length (w : Nat) : ∀ v, (natLEBytes w v).length = w := by
  induction w with
  | zero => intro v; rfl
  | succ n ih => intro v; simp [natLEBytes, ih]

theorem intFieldBytes_length (ord : ByteOrder) (w : Nat) (v : Int) :
    (intFieldBytes ord w v).length = w := by
  cases ord <;> simp [intFieldBytes, natLEBytes_length]

theorem padTrunc_length (bs : List Nat) (n : Nat) :
    (padTrunc bs n).length = n := by
  simp [padTrunc]
  omega

theorem pascalBytes_length (bs : List Nat) (n : Nat) :
    (pascalBytes bs n).length = n := by
  cases n <;> simp [pascalBytes, padTrunc_length]

/-- A successfully packed scalar has exactly the mode's field size. -/
theorem packScalar_ok_size (ord : ByteOrder) (un : Bool) (c : Char)
    (a : PackArg) (bs : List Nat) (h : packScalar ord un c a = .ok bs) :
    ∃ s, modeSize un c = some s ∧ bs.length = s := by
  unfold packScalar at h
  split at h
  · -- 'c'
    split at h
    · cases h
      exact ⟨1, by cases un <;> rfl, rfl⟩
    · cases h
  · -- '?'
    cases h
    exact ⟨1, by cases un <;> rfl, rfl⟩
  · cases h
  · cases h
  · cases h
  · -- integer formats
    split at h
    · cases h
    · rename_i s hs
      split at h
      · cases h
      · rename_i v hv
        split at h <;> split at h <;> cases h
        · exact ⟨s, hs, intFieldBytes_length ord s v⟩
        · exact ⟨s, hs, intFieldBytes_length ord s v⟩

/-- `n` successfully packed scalars yield exactly `n * s` bytes. -/
theorem packScalars_length (ord : ByteOrder) (un : Bool) (c : Char) (s : Nat)
    (hs : modeSize un c = some s) :
    ∀ (n : Nat) (args : List PackArg) (bs : List Nat) (rest : List PackArg),
      packScalars ord un c n args = .ok (bs, rest) → bs.length = n * s := by
  intro n
  induction n with
  | zero => intro args bs rest h; cases h; simp
  | succ m ih =>
    intro args bs rest h
    unfold packScalars at h
    split at h
    · cases h
    · rename_i a args'
      split at h
      · cases h
      · rename_i bs1 h1
        split at h
        · cases h
        · rename_i h2
          cases h
          obtain ⟨s', hs', hlen⟩ := packScalar_ok_size ord un c a bs1 h1
          rw [hs] at hs'
          injection hs' with hss
          simp only [List.length_append, hlen, ih args' _ rest h2, ← hss]
          ring

/-- A successful `packTokensGo` run emits exactly the bytes `calcsizeTokens`
accounts for: calcsize of the remaining tokens, started at the current
output position, is the final output length. -/
theorem packTokensGo_calcsize (mode : StructMode) :
    ∀ (toks : List (Option Nat × Char)) (args : List PackArg) (acc out : List Nat),
      packTokensGo mode toks args acc = .ok out →
      calcsizeTokens mode.useNative mode.aligned toks acc.length = .ok out.length := by
  intro toks
  induction toks with
  | nil =>
    intro args acc out h
    unfold packTokensGo at h
    split at h
    · cases h; rfl
    · exact Except.noConfusion h
  | cons t rest ih =>
    obtain ⟨cnt, c⟩ := t
    intro args acc out h
    unfold packTokensGo at h
    unfold calcsizeTokens
    dsimp only [] at h ⊢
    split at h
    · -- 'x'
      have h2 := ih _ _ _ h
      simp only [List.length_append, List.length_replicate] at h2
      exact h2
    · -- 's'
      split at h
      · exact Except.noConfusion h
      · have h2 := ih _ _ _ h
        simp only [List.length_append, List.length_replicate, padTrunc_length] at h2
        exact h2
      · exact Except.noConfusion h
    · -- 'p'
      split at h
      · exact Except.noConfusion h
      · have h2 := ih _ _ _ h
        simp only [List.length_append, List.length_replicate, pascalBytes_length] at h2
        exact h2
      · exact Except.noConfusion h
    · -- scalar formats
      split at h
      · exact Except.noConfusion h
      · rename_i s hs
        split at h
        · exact Except.noConfusion h
        · rename_i bs args' hsc
          have hbs := packScalars_length mode.order mode.useNative c s hs _ _ _ _ hsc
          have h2 := ih _ _ _ h
          simp only [List.length_append, List.length_replicate, hbs] at h2
          simp only [hs] at h2 ⊢
          exact h2

theorem writeAt_length (buff : List Nat) (off : Nat) (bs : List Nat)
    (h : off + bs.length ≤ buff.length) :
    (writeAt buff off bs).length = buff.length := by
  simp [writeAt]
  omega

theorem writeAt_outside (buff : List Nat) (off : Nat) (bs : List Nat)
    (h : off + bs.length ≤ buff.length) (j : Nat)
    (hj : j < off ∨ off + bs.length ≤ j) :
    (writeAt buff off bs)[j]? = buff[j]? := by
  have htake : (buff.take off).length = off := by
    simp [List.length_take]
    omega
  rcases hj with hj | hj
  · rw [writeAt, List.getElem?_append_left (by simp [htake]; omega),
      List.getElem?_append_left (by omega), List.getElem?_take]
    simp [hj]
  · rw [writeAt, List.getElem?_append_right (by simp [htake]; omega)]
    rw [List.getElem?_drop]
    congr 1
    simp [htake]
    omega

/-- Specification of a successful `struct.pack_into`: `struct.calcsize`
succeeds with the packed length, the write fits, the buffer keeps its
length, and bytes outside `[offset, offset + size)` are untouched. -/
theorem struct_pack_into_spec (ord : ByteOrder) (fmt : List Char)
    (buff : List Nat) (off : Nat) (args : List PackArg) (buff' : List Nat)
    (h : struct_pack_into ord fmt buff off args = .ok buff') :
    ∃ n, struct_calcsize ord fmt = .ok n ∧ off + n ≤ buff.length ∧
      buff'.length = buff.length ∧
      ∀ j, j < off ∨ off + n ≤ j → buff'[j]? = buff[j]? := by
  unfold struct_pack_into at h
  cases hb : struct_pack_bytes ord fmt args with
  | error e => rw [hb] at h; exact Except.noConfusion h
  | ok bs =>
    rw [hb] at h
    dsimp only [] at h
    split at h
    · rename_i hle
      cases h
      refine ⟨bs.length, ?_, hle, writeAt_length _ _ _ hle,
        fun j hj => writeAt_outside _ _ _ hle j hj⟩
      unfold struct_pack_bytes at hb
      unfold struct_calcsize
      rcases hpm : parseStructMode ord fmt with ⟨mode, body⟩
      rw [hpm] at hb
      dsimp only [] at hb ⊢
      cases ht : tokenizeStruct body Option.none with
      | error e => rw [ht] at hb; exact Except.noConfusion hb
      | ok toks =>
        rw [ht] at hb
        dsimp only [] at hb
        have := packTokensGo_calcsize mode toks args [] bs hb
        simpa using this
    · exact Except.noConfusion h

/-- Write-confinement of the varint encoder loop: a successful run leaves
the buffer length unchanged, stays within bounds, and touches only
`[offset, offset + size)`. -/
theorem packVarintGo_confine (ord : ByteOrder) :
    ∀ (fuel : Nat) (buff : List Nat) (off : Nat) (val : Int) (sz : Nat)
      (buff' : List Nat),
      packVarintGo ord buff off fuel val = .ok (sz, buff') →
      buff'.length = buff.length ∧ off + sz ≤ buff.length ∧
        ∀ j, j < off ∨ off + sz ≤ j → buff'[j]? = buff[j]? := by
  intro fuel
  induction fuel with
  | zero => intro buff off val sz buff' h; exact Except.noConfusion h
  | succ n ih =>
    intro buff off val sz buff' h
    unfold packVarintGo at h
    dsimp only [] at h
    split at h
    · -- exit iteration: one byte with a clear high bit
      rw [struct_pack_into_c_bytes] at h
      split at h
      · exact Except.noConfusion h
      · rename_i bs hok
        cases h
        split at hok
        · rename_i hle
          cases hok
          exact ⟨writeAt_length _ _ _ (by simpa using hle), by simpa using hle,
            fun j hj => writeAt_outside _ _ _ (by simpa using hle) j (by simpa using hj)⟩
        · exact Except.noConfusion hok
    · -- continuation byte then the rest of the loop
      rw [struct_pack_into_c_bytes] at h
      split at h
      · exact Except.noConfusion h
      · rename_i bs hok
        split at h
        · exact Except.noConfusion h
        · rename_i sz2 buff2 hrec
          cases h
          split at hok
          · rename_i hle
            cases hok
            obtain ⟨hl, hbound, hout⟩ := ih _ _ _ _ _ hrec
            have hwle : off + ([((val % 128).toNat ||| 128) % 256] : List Nat).length ≤
                buff.length := by simpa using hle
            have hwl := writeAt_length buff off _ hwle
            refine ⟨by rw [hl, hwl], ?_, ?_⟩
            · rw [hwl] at hbound
              omega
            · intro j hj
              rw [hout j (by omega), writeAt_outside _ _ _ hwle j (by simp; omega)]
          · exact Except.noConfusion hok

/-- Write-confinement of the varint-path loop of `pack_into`: on success the
accumulated size only grows, the buffer keeps its length, and all writes lie
in `[offset, offset + written)` where `written` is the growth of the
accumulated size. -/
theorem packParts_confine (ord : ByteOrder) (fmt : List Char) :
    ∀ (parts : List (List Char)) (i : Nat) (buff : List Nat) (off : Nat)
      (args : List PackArg) (size0 sizeF : Nat) (buffF : List Nat),
      packParts ord fmt parts i buff off args size0 = .ok (sizeF, buffF) →
      size0 ≤ sizeF ∧ buffF.length = buff.length ∧
        ∀ j, j < off ∨ off + (sizeF - size0) ≤ j → buffF[j]? = buff[j]? := by
  intro parts
  induction parts with
  | nil =>
    intro i buff off args size0 sizeF buffF h
    cases h
    exact ⟨Nat.le_refl _, rfl, fun j _ => rfl⟩
  | cons p rest ih =>
    intro i buff off args size0 sizeF buffF h
    unfold packParts at h
    dsimp only [] at h
    split at h
    · -- varint slot
      split at h
      · exact Except.noConfusion h
      · split at h
        · exact Except.noConfusion h
        · split at h
          · exact Except.noConfusion h
          · rename_i hvar
            obtain ⟨hvl, hvbound, hvout⟩ :=
              packVarintGo_confine ord _ _ _ _ _ _ hvar
            obtain ⟨hsz, hl, hout⟩ := ih _ _ _ _ _ _ _ h
            refine ⟨by omega, by rw [hl, hvl], ?_⟩
            intro j hj
            rw [hout j (by omega), hvout j (by omega)]
    · -- fixed-width run
      split at h
      · split at h
        · exact Except.noConfusion h
        · rename_i hpk
          split at h
          · exact Except.noConfusion h
          · rename_i hcs
            obtain ⟨n, hcalc, hble, hl1, hout1⟩ :=
              struct_pack_into_spec _ _ _ _ _ _ hpk
            rw [hcalc] at hcs
            injection hcs with hfs
            subst hfs
            obtain ⟨hsz, hl, hout⟩ := ih _ _ _ _ _ _ _ h
            refine ⟨by omega, by rw [hl, hl1], ?_⟩
            intro j hj
            rw [hout j (by omega), hout1 j (by omega)]
      · exact Except.noConfusion h

/-- C1 (amended): on the varint path (`'V'` in the format) `pack_into`
returns `some n` where `n` counts the bytes written — the buffer keeps its
length and every byte outside `[offset, offset + n)` is untouched; on the
fast path the source passes through the fixed-width packer's own return
value, Python `None`, not a byte count. -/
theorem pack_into_returns_written_bytes :
    (∀ (ord : ByteOrder) (fmt : String) (buff : List Nat) (off : Nat)
        (args : List PackArg) (r : Option Nat × List Nat),
        'V' ∈ fmt.data → pack_into ord fmt buff off args = .ok r →
        ∃ n, r.1 = some n ∧ r.2.length = buff.length ∧
          ∀ j, j < off ∨ off + n ≤ j → r.2[j]? = buff[j]?) ∧
    (∀ (ord : ByteOrder) (fmt : String) (buff : List Nat) (off : Nat)
        (args : List PackArg) (r : Option Nat × List Nat),
        'V' ∉ fmt.data → pack_into ord fmt buff off args = .ok r →
        r.1 = Option.none) := by
  constructor
  · intro ord fmt buff off args r hv h
    unfold pack_into at h
    rw [if_pos hv] at h
    cases hp : packParts ord fmt.data (splitV fmt.data) 0 buff off args 0 with
    | error e => rw [hp] at h; exact Except.noConfusion h
    | ok q =>
      rw [hp] at h
      cases h
      obtain ⟨szF, buffF⟩ := q
      obtain ⟨_, hl, hout⟩ := packParts_confine ord fmt.data _ _ _ _ _ _ _ _ hp
      exact ⟨szF, rfl, hl, fun j hj => hout j (by omega)⟩
  · intro ord fmt buff off args r hv h
    unfold pack_into at h
    rw [if_neg hv] at h
    cases hp : struct_pack_into ord fmt.data buff off args with
    | error e => rw [hp] at h; exact Except.noConfusion h
    | ok buff' => rw [hp] at h; cases h; rfl

/-- Witness for C1's amended theorem at the concrete formats `"iVi"`
(varint path) and `"i"` (fast path). -/
theorem pack_into_returns_written_bytes_witness :
    ('V' ∈ "iVi".data ∧
      ∃ n, (some 10 : Option Nat) = some n ∧
        ([1, 0, 0, 0, 172, 2, 2, 0, 0, 0] : List Nat).length =
          (List.replicate 10 0 : List Nat).length ∧
        ∀ j, j < 0 ∨ 0 + n ≤ j →
          ([1, 0, 0, 0, 172, 2, 2, 0, 0, 0] : List Nat)[j]? =
            (List.replicate 10 0 : List Nat)[j]?) ∧
    ('V' ∉ "i".data ∧
      ((Option.none : Option Nat), ([1, 0, 0, 0] : List Nat)).1 = Option.none) := by
  constructor
  · refine ⟨by decide, ?_⟩
    exact pack_into_returns_written_bytes.1 ByteOrder.little "iVi"
      (List.replicate 10 0) 0 [.int 1, .int 300, .int 2]
      (some 10, [1, 0, 0, 0, 172, 2, 2, 0, 0, 0]) (by decide) (by decide)
  · refine ⟨by decide, ?_⟩
    exact pack_into_returns_written_bytes.2 ByteOrder.little "i"
      (List.replicate 4 0) 0 [.int 1]
      (Option.none, [1, 0, 0, 0]) (by decide) (by decide)

/-- Dividing by 128 removes exactly 7 bits from the binary length of a
number that is at least 128. -/
theorem size_div128 (m : Nat) (hm : 128 ≤ m) :
    Nat.size m = Nat.size (m / 128) + 7 := by
  have hdm := Nat.div_add_mod m 128
  have hmod : m % 128 < 128 := Nat.mod_lt m (by norm_num)
  have hq1 : 1 ≤ m / 128 := by omega
  have h1 : m / 128 < 2 ^ Nat.size (m / 128) := Nat.lt_size_self (m / 128)
  have hposq : 1 ≤ Nat.size (m / 128) := by
    rw [Nat.one_le_iff_ne_zero, Ne, Nat.size_eq_zero]
    omega
  have hub : m < 2 ^ (Nat.size (m / 128) + 7) := by
    have h2 : 128 * (m / 128 + 1) ≤ 128 * 2 ^ Nat.size (m / 128) :=
      Nat.mul_le_mul_left 128 h1
    have h3 : (2 : Nat) ^ (Nat.size (m / 128) + 7) =
        128 * 2 ^ Nat.size (m / 128) := by
      rw [pow_add]
      ring
    omega
  have hlb : 2 ^ (Nat.size (m / 128) + 6) ≤ m := by
    have h2 : 2 ^ (Nat.size (m / 128) - 1) ≤ m / 128 :=
      Nat.lt_size.1 (by omega)
    have h3 : (2 : Nat) ^ (Nat.size (m / 128) + 6) =
        128 * 2 ^ (Nat.size (m / 128) - 1) := by
      rw [show Nat.size (m / 128) + 6 = 7 + (Nat.size (m / 128) - 1) by omega,
        pow_add]
      norm_num
    have h4 : 128 * 2 ^ (Nat.size (m / 128) - 1) ≤ 128 * (m / 128) :=
      Nat.mul_le_mul_left 128 h2
    omega
  have hA := Nat.size_le.2 hub
  have hB := Nat.lt_size.2 hlb
  omega

/-- On a non-negative value, a successful run of the varint encoder loop
writes exactly `max 1 ⌈bit_length / 7⌉` bytes. -/
theorem packVarintGo_size (ord : ByteOrder) :
    ∀ (fuel : Nat) (buff : List Nat) (off : Nat) (val : Int) (sz : Nat)
      (buff' : List Nat), 0 ≤ val →
      packVarintGo ord buff off fuel val = .ok (sz, buff') →
      sz = max 1 ((Nat.size val.toNat + 6) / 7) := by
  intro fuel
  induction fuel with
  | zero => intro buff off val sz buff' _ h; exact Except.noConfusion h
  | succ n ih =>
    intro buff off val sz buff' hval h
    unfold packVarintGo at h
    dsimp only [] at h
    split at h
    · rename_i hz
      split at h
      · exact Except.noConfusion h
      · cases h
        have hlt : val.toNat < 128 := by omega
        have hs : Nat.size val.toNat ≤ 7 := Nat.size_le.2 (by
          calc val.toNat < 128 := hlt
            _ ≤ 2 ^ 7 := by norm_num)
        omega
    · rename_i hz
      split at h
      · exact Except.noConfusion h
      · split at h
        · exact Except.noConfusion h
        · rename_i hrec
          cases h
          have hval' : 0 ≤ val / 128 := by omega
          have ih' := ih _ _ _ _ _ hval' hrec
          have h128 : 128 ≤ val.toNat := by omega
          have htn : (val / 128).toNat = val.toNat / 128 := by omega
          rw [htn] at ih'
          have hsz := size_div128 val.toNat h128
          have hposq : 1 ≤ Nat.size (val.toNat / 128) := by
            rw [Nat.one_le_iff_ne_zero, Ne, Nat.size_eq_zero]
            omega
          omega

/-- With a negative value the loop's exit condition is never reached: the
quotient stays negative, so no amount of fuel produces a successful run. -/
theorem packVarintGo_neg (ord : ByteOrder) :
    ∀ (fuel : Nat) (buff : List Nat) (off : Nat) (val : Int)
      (r : Nat × List Nat), val < 0 →
      packVarintGo ord buff off fuel val ≠ .ok r := by
  intro fuel
  induction fuel with
  | zero => intro buff off val r _ h; exact Except.noConfusion h
  | succ n ih =>
    intro buff off val r hneg h
    unfold packVarintGo at h
    dsimp only [] at h
    split at h
    · rename_i hz
      omega
    · split at h
      · exact Except.noConfusion h
      · split at h
        · exact Except.noConfusion h
        · rename_i hrec
          exact ih _ _ _ _ (by omega) hrec

/-- Fuel-stability: any budget larger than the value itself yields the same
result, i.e. the loop terminates within `val + 1` iterations on a
non-negative value. -/
theorem packVarintGo_fuel (ord : ByteOrder) :
    ∀ (fuel fuel' : Nat) (buff : List Nat) (off : Nat) (val : Int),
      0 ≤ val → val.toNat < fuel → val.toNat < fuel' →
      packVarintGo ord buff off fuel val = packVarintGo ord buff off fuel' val := by
  intro fuel
  induction fuel with
  | zero => intro fuel' buff off val _ hf _; exact absurd hf (Nat.not_lt_zero _)
  | succ n ih =>
    intro fuel' buff off val hval hf hf'
    cases fuel' with
    | zero => exact absurd hf' (Nat.not_lt_zero _)
    | succ m =>
      unfold packVarintGo
      dsimp only []
      by_cases hz : val / 128 = 0
      · rw [if_pos hz, if_pos hz]
      · rw [if_neg hz, if_neg hz]
        cases hs : struct_pack_into ord ['c'] buff off
            [.bytes [(val % 128).toNat ||| 128]] with
        | error e => rfl
        | ok buff1 =>
          dsimp only []
          rw [ih m buff1 (off + 1) (val / 128) (by omega) (by omega) (by omega)]

/-- C8: `pack_varint_into` terminates on every non-negative value — any
iteration budget above `val` gives the same result as the `val + 1` budget
used — and a successful run returns exactly
`max 1 ⌈bit_length(value) / 7⌉` bytes; with a negative value the loop's
exit condition is never reached (it can only stop by raising), so the
non-negativity precondition is required. -/
theorem pack_varint_into_iterations :
    (∀ (ord : ByteOrder) (buff : List Nat) (off : Nat) (val : Int) (sz : Nat)
        (buff' : List Nat), 0 ≤ val →
        pack_varint_into ord buff off val = .ok (sz, buff') →
        sz = max 1 ((Nat.size val.toNat + 6) / 7)) ∧
    (∀ (ord : ByteOrder) (fuel : Nat) (buff : List Nat) (off : Nat) (val : Int),
        0 ≤ val → val.toNat < fuel →
        packVarintGo ord buff off fuel val = pack_varint_into ord buff off val) ∧
    (∀ (ord : ByteOrder) (fuel : Nat) (buff : List Nat) (off : Nat) (val : Int)
        (r : Nat × List Nat), val < 0 →
        packVarintGo ord buff off fuel val ≠ .ok r) := by
  refine ⟨?_, ?_, ?_⟩
  · intro ord buff off val sz buff' hval h
    exact packVarintGo_size ord _ _ _ _ _ _ hval h
  · intro ord fuel buff off val hval hf
    exact packVarintGo_fuel ord fuel (val.toNat + 1) buff off val hval hf (by omega)
  · intro ord fuel buff off val r hneg
    exact packVarintGo_neg ord fuel buff off val r hneg

/-- Witness for C8 at the concrete values 300 (two bytes), 5 (budget 7)
and -1 (no success with budget 5). -/
theorem pack_varint_into_iterations_witness :
    ((0 : Int) ≤ 300 ∧
      pack_varint_into ByteOrder.little (List.replicate 10 0) 0 300 =
        .ok (2, [172, 2, 0, 0, 0, 0, 0, 0, 0, 0]) ∧
      2 = max 1 ((Nat.size (300 : Int).toNat + 6) / 7)) ∧
    ((0 : Int) ≤ 5 ∧ (5 : Int).toNat < 7 ∧
      packVarintGo ByteOrder.little (List.replicate 10 0) 0 7 5 =
        pack_varint_into ByteOrder.little (List.replicate 10 0) 0 5) ∧
    ((-1 : Int) < 0 ∧
      packVarintGo ByteOrder.little (List.replicate 10 0) 0 5 (-1) ≠
        .ok (1, List.replicate 10 0)) := by
  refine ⟨⟨by decide, by decide, ?_⟩, ⟨by decide, by decide, ?_⟩, ⟨by decide, ?_⟩⟩
  · exact pack_varint_into_iterations.1 ByteOrder.little (List.replicate 10 0) 0
      300 2 [172, 2, 0, 0, 0, 0, 0, 0, 0, 0] (by decide) (by decide)
  · exact pack_varint_into_iterations.2.1 ByteOrder.little 7
      (List.replicate 10 0) 0 5 (by decide) (by decide)
  · exact pack_varint_into_iterations.2.2 ByteOrder.little 5
      (List.replicate 10 0) 0 (-1) (1, List.replicate 10 0) (by decide)

/-! ### Step equations for the decoder loop -/

theorem unpackGo_nil (buff : List Nat) (afmt : Option (List Char))
    (items : List Value) (offset : Nat) :
    unpackGo buff [] afmt items offset = .ok (items, offset) := by
  rw [unpackGo.eq_def]

theorem unpackGo_close (buff : List Nat) (rem' a : List Char)
    (items : List Value) (offset : Nat)
    (hbal : a.count '[' = a.count ']') (hle : offset + 4 ≤ buff.length) :
    unpackGo buff (']' :: rem') (some a) items offset =
      match _unpack_array a buff (offset + 4)
        (toSigned 4 (beNat (sliceBytes buff offset 4))) with
      | .error e => .error e
      | .ok (arrayItem, offset') =>
        unpackGo buff rem' Option.none (items ++ [Value.seq arrayItem]) offset' := by
  rw [unpackGo.eq_def]
  simp [hbal, hle]

theorem unpackGo_close_short (buff : List Nat) (rem' a : List Char)
    (items : List Value) (offset : Nat)
    (hbal : a.count '[' = a.count ']') (hle : ¬offset + 4 ≤ buff.length) :
    unpackGo buff (']' :: rem') (some a) items offset =
      .error "struct.error: unpack_from requires a buffer" := by
  rw [unpackGo.eq_def]
  simp [hbal, hle]

theorem unpackGo_accum (buff : List Nat) (ch : Char) (rem' a : List Char)
    (items : List Value) (offset : Nat)
    (h : ¬(ch = ']' ∧ a.count '[' = a.count ']')) :
    unpackGo buff (ch :: rem') (some a) items offset =
      unpackGo buff rem' (some (a ++ [ch])) items offset := by
  rw [unpackGo.eq_def]
  simp [h]

theorem unpackGo_open (buff : List Nat) (rem' : List Char)
    (items : List Value) (offset : Nat) :
    unpackGo buff ('[' :: rem') Option.none items offset =
      unpackGo buff rem' (some []) items offset := by
  rw [unpackGo.eq_def]
  simp

theorem unpackGo_V (buff : List Nat) (rem' : List Char)
    (items : List Value) (offset : Nat) :
    unpackGo buff ('V' :: rem') Option.none items offset =
      match unpack_varint_from buff offset with
      | .error e => .error e
      | .ok (len_, unpacked) =>
        unpackGo buff rem' Option.none (items ++ [Value.int unpacked]) (offset + len_) := by
  rw [unpackGo.eq_def]
  simp

theorem unpackGo_SY (buff : List Nat) (ch : Char) (rem' : List Char)
    (items : List Value) (offset : Nat) (hch : ch = 'S' ∨ ch = 'Y') :
    unpackGo buff (ch :: rem') Option.none items offset =
      (let w := if ch = 'S' then 2 else 4
       if offset + w ≤ buff.length then
         let len_ := toSigned w (beNat (sliceBytes buff offset w))
         if len_ = -1 then
           unpackGo buff rem' Option.none (items ++ [Value.none]) (offset + w)
         else if len_ < 0 then .error "struct.error: bad char in struct format"
         else if offset + w + len_.toNat ≤ buff.length then
           unpackGo buff rem' Option.none
             (items ++ [Value.bytes (sliceBytes buff (offset + w) len_.toNat)])
             (offset + w + len_.toNat)
         else .error "struct.error: unpack_from requires a buffer"
       else .error "struct.error: unpack_from requires a buffer") := by
  have h1 : ¬ch = '[' := by rcases hch with h | h <;> simp [h]
  have h2 : ¬ch = 'V' := by rcases hch with h | h <;> simp [h]
  rw [unpackGo.eq_def]
  simp only [h1, h2, hch, if_false, if_true, ite_true, ite_false, if_neg, if_pos,
    reduceCtorEq]

theorem unpackGo_prim (buff : List Nat) (ch : Char) (rem' : List Char)
    (items : List Value) (offset : Nat)
    (h1 : ¬ch = '[') (h2 : ¬ch = 'V') (h3 : ¬(ch = 'S' ∨ ch = 'Y')) :
    unpackGo buff (ch :: rem') Option.none items offset =
      match stdUnpackFrom1 ch buff offset with
      | .error e => .error e
      | .ok vs =>
        unpackGo buff rem' Option.none (items ++ vs)
          (offset + (nativeSize ch).getD 0) := by
  rw [unpackGo.eq_def]
  simp [h1, h2, h3]

theorem _unpack_def (fmt : List Char) (buff : List Nat) (offset : Nat)
    (count : Int) :
    _unpack fmt buff offset count = unpackGo buff fmt Option.none [] offset := by
  rw [_unpack.eq_def]

theorem _unpack_array_def (fmt : List Char) (buff : List Nat) (offset : Nat)
    (count : Int) :
    _unpack_array fmt buff offset count =
      match unpackArrayGo fmt buff offset count.toNat with
      | .error e => .error e
      | .ok (output, offset') => .ok (arrayPost fmt output, offset') := by
  rw [_unpack_array.eq_def]

theorem unpackArrayGo_zero (fmt : List Char) (buff : List Nat) (offset : Nat) :
    unpackArrayGo fmt buff offset 0 = .ok ([], offset) := by
  rw [unpackArrayGo.eq_def]

theorem unpackArrayGo_succ (fmt : List Char) (buff : List Nat) (offset : Nat)
    (m : Nat) :
    unpackArrayGo fmt buff offset (m + 1) =
      match _unpack fmt buff offset 1 with
      | .error e => .error e
      | .ok (item, offset') =>
        match unpackArrayGo fmt buff offset' m with
        | .error e => .error e
        | .ok (output, offset'') => .ok (item :: output, offset'') := by
  rw [unpackArrayGo.eq_def]

/-- The decode cursor is monotone across the whole mutual recursion:
whenever `unpackGo`, `_unpack_array`, `unpackArrayGo` or `_unpack` succeeds,
the returned offset is at least the starting offset. -/
theorem decode_offset_mono :
    (∀ (buff : List Nat) (rem : List Char) (afmt : Option (List Char))
        (items : List Value) (offset : Nat), ∀ vs off₂,
        unpackGo buff rem afmt items offset = .ok (vs, off₂) → offset ≤ off₂) ∧
    (∀ (fmt : List Char) (buff : List Nat) (offset : Nat) (count : Int),
        ∀ vs off₂,
        _unpack_array fmt buff offset count = .ok (vs, off₂) → offset ≤ off₂) ∧
    (∀ (fmt : List Char) (buff : List Nat) (offset n : Nat), ∀ vs off₂,
        unpackArrayGo fmt buff offset n = .ok (vs, off₂) → offset ≤ off₂) ∧
    (∀ (fmt : List Char) (buff : List Nat) (offset : Nat) (count : Int),
        ∀ vs off₂,
        _unpack fmt buff offset count = .ok (vs, off₂) → offset ≤ off₂) := by
  refine unpackGo.mutual_induct
    (fun buff rem afmt items offset => ∀ vs off₂,
      unpackGo buff rem afmt items offset = .ok (vs, off₂) → offset ≤ off₂)
    (fun fmt buff offset count => ∀ vs off₂,
      _unpack_array fmt buff offset count = .ok (vs, off₂) → offset ≤ off₂)
    (fun fmt buff offset n => ∀ vs off₂,
      unpackArrayGo fmt buff offset n = .ok (vs, off₂) → offset ≤ off₂)
    (fun fmt buff offset count => ∀ vs off₂,
      _unpack fmt buff offset count = .ok (vs, off₂) → offset ≤ off₂)
    ?_ ?_ ?_ ?_ ?_ ?_ ?_ ?_ ?_ ?_ ?_ ?_ ?_ ?_ ?_ ?_ ?_ ?_ ?_ ?_ ?_ ?_
  · -- empty format
    intro buff afmt items offset vs off₂ h
    rw [unpackGo_nil] at h
    cases h
    exact Nat.le_refl _
  · -- array close, inner array errors
    intro buff items offset ch rem' a hcond hle count e harr ih2 vs off₂ h
    obtain ⟨hch, hbal⟩ := hcond
    subst hch
    have hc : count = toSigned 4 (beNat (sliceBytes buff offset 4)) := rfl
    rw [hc] at harr
    rw [unpackGo_close buff rem' a items offset hbal hle, harr] at h
    exact Except.noConfusion h
  · -- array close, inner array succeeds
    intro buff items offset ch rem' a hcond hle count arrayItem offset' harr ih2 ih1 vs off₂ h
    obtain ⟨hch, hbal⟩ := hcond
    subst hch
    have hc : count = toSigned 4 (beNat (sliceBytes buff offset 4)) := rfl
    rw [hc] at harr
    rw [unpackGo_close buff rem' a items offset hbal hle, harr] at h
    have h2 := ih2 arrayItem offset' (by rw [← hc] at harr; exact harr)
    have h1 := ih1 vs off₂ h
    omega
  · -- array close, count prefix out of bounds
    intro buff items offset ch rem' a hcond hle vs off₂ h
    obtain ⟨hch, hbal⟩ := hcond
    subst hch
    rw [unpackGo_close_short buff rem' a items offset hbal hle] at h
    exact Except.noConfusion h
  · -- accumulate into the array format
    intro buff items offset ch rem' a hcond ih vs off₂ h
    rw [unpackGo_accum buff ch rem' a items offset hcond] at h
    exact ih vs off₂ h
  · -- open bracket
    intro buff items offset rem' ih vs off₂ h
    rw [unpackGo_open] at h
    exact ih vs off₂ h
  · -- varint read errors
    intro buff items offset rem' e hv _ vs off₂ h
    rw [unpackGo_V, hv] at h
    exact Except.noConfusion h
  · -- varint read succeeds
    intro buff items offset rem' len_ unpacked hv _ ih vs off₂ h
    rw [unpackGo_V, hv] at h
    have := ih vs off₂ h
    omega
  · -- S/Y with length -1
    intro buff items offset ch rem' h1 h2 hch w hle len_ hneg ih vs off₂ h
    have hw : w = if ch = 'S' then 2 else 4 := rfl
    have hl : len_ = toSigned w (beNat (sliceBytes buff offset w)) := rfl
    rw [unpackGo_SY buff ch rem' items offset hch] at h
    dsimp only [] at h
    rw [← hw, if_pos hle, ← hl, if_pos hneg] at h
    have := ih vs off₂ h
    omega
  · -- S/Y with negative length other than -1
    intro buff items offset ch rem' h1 h2 hch w hle len_ hneg hlt vs off₂ h
    have hw : w = if ch = 'S' then 2 else 4 := rfl
    have hl : len_ = toSigned w (beNat (sliceBytes buff offset w)) := rfl
    rw [unpackGo_SY buff ch rem' items offset hch] at h
    dsimp only [] at h
    rw [← hw, if_pos hle, ← hl, if_neg hneg, if_pos hlt] at h
    exact Except.noConfusion h
  · -- S/Y payload read
    intro buff items offset ch rem' h1 h2 hch w hle len_ hneg hnlt hple ih vs off₂ h
    have hw : w = if ch = 'S' then 2 else 4 := rfl
    have hl : len_ = toSigned w (beNat (sliceBytes buff offset w)) := rfl
    rw [unpackGo_SY buff ch rem' items offset hch] at h
    dsimp only [] at h
    rw [← hw, if_pos hle, ← hl, if_neg hneg, if_neg hnlt, if_pos hple] at h
    have := ih vs off₂ h
    omega
  · -- S/Y payload out of bounds
    intro buff items offset ch rem' h1 h2 hch w hle len_ hneg hnlt hple vs off₂ h
    have hw : w = if ch = 'S' then 2 else 4 := rfl
    have hl : len_ = toSigned w (beNat (sliceBytes buff offset w)) := rfl
    rw [unpackGo_SY buff ch rem' items offset hch] at h
    dsimp only [] at h
    rw [← hw, if_pos hle, ← hl, if_neg hneg, if_neg hnlt, if_neg hple] at h
    exact Except.noConfusion h
  · -- S/Y length prefix out of bounds
    intro buff items offset ch rem' h1 h2 hch w hle vs off₂ h
    have hw : w = if ch = 'S' then 2 else 4 := rfl
    rw [unpackGo_SY buff ch rem' items offset hch] at h
    dsimp only [] at h
    rw [← hw, if_neg hle] at h
    exact Except.noConfusion h
  · -- primitive read errors
    intro buff items offset ch rem' h1 h2 h3 e hstd vs off₂ h
    rw [unpackGo_prim buff ch rem' items offset h1 h2 h3, hstd] at h
    exact Except.noConfusion h
  · -- primitive read succeeds
    intro buff items offset ch rem' h1 h2 h3 vs2 hstd ih vs off₂ h
    rw [unpackGo_prim buff ch rem' items offset h1 h2 h3, hstd] at h
    have := ih vs off₂ h
    omega
  · -- _unpack_array: the repetition loop errors
    intro fmt buff offset count e harr ih3 vs off₂ h
    rw [_unpack_array_def, harr] at h
    exact Except.noConfusion h
  · -- _unpack_array: the repetition loop succeeds
    intro fmt buff offset count output offset' harr ih3 vs off₂ h
    rw [_unpack_array_def, harr] at h
    cases h
    exact ih3 output offset' harr
  · -- zero repetitions
    intro fmt buff offset vs off₂ h
    rw [unpackArrayGo_zero] at h
    cases h
    exact Nat.le_refl _
  · -- repetition: the element decode errors
    intro fmt buff offset m e hel ih4 vs off₂ h
    rw [unpackArrayGo_succ, hel] at h
    exact Except.noConfusion h
  · -- repetition: the remaining loop errors
    intro fmt buff offset m arrayItem offset' hel e hrest ih4 ih3 vs off₂ h
    rw [unpackArrayGo_succ, hel] at h
    dsimp only [] at h
    rw [hrest] at h
    exact Except.noConfusion h
  · -- repetition: element and loop both succeed
    intro fmt buff offset m arrayItem offset' hel output offset'' hrest ih4 ih3 vs off₂ h
    rw [unpackArrayGo_succ, hel] at h
    dsimp only [] at h
    rw [hrest] at h
    cases h
    have h4 := ih4 arrayItem offset' hel
    have h3 := ih3 output offset'' hrest
    omega
  · -- _unpack delegates to the loop
    intro fmt buff offset count ih1 vs off₂ h
    rw [_unpack_def] at h
    exact ih1 vs off₂ h

/-- Each iteration of the varint decode loop increments the size counter, so
the final count exceeds the starting one. -/
theorem unpackVarintGo_pos :
    ∀ (l : List Nat) (size shift result sz v : Nat),
      unpackVarintGo l size shift result = .ok (sz, v) → size + 1 ≤ sz := by
  intro l
  induction l with
  | nil => intro size shift result sz v h; exact Except.noConfusion h
  | cons b rest ih =>
    intro size shift result sz v h
    unfold unpackVarintGo at h
    dsimp only [] at h
    split at h
    · cases h; omega
    · have := ih _ _ _ _ _ h; omega

/-- C9: the decode cursor is monotone — a successful `_unpack`,
`_unpack_array` or `unpack_varint_from` never moves the offset backwards,
and the varint decoder always consumes at least one byte. -/
theorem decode_cursor_monotone :
    (∀ (fmt : List Char) (buff : List Nat) (offset : Nat) (count : Int)
        (vs : List Value) (off₂ : Nat),
        _unpack fmt buff offset count = .ok (vs, off₂) → offset ≤ off₂) ∧
    (∀ (fmt : List Char) (buff : List Nat) (offset : Nat) (count : Int)
        (vs : List Value) (off₂ : Nat),
        _unpack_array fmt buff offset count = .ok (vs, off₂) → offset ≤ off₂) ∧
    (∀ (buff : List Nat) (offset sz v : Nat),
        unpack_varint_from buff offset = .ok (sz, v) → 1 ≤ sz) :=
  ⟨fun fmt buff off c vs o2 h => decode_offset_mono.2.2.2 fmt buff off c vs o2 h,
   fun fmt buff off c vs o2 h => decode_offset_mono.2.1 fmt buff off c vs o2 h,
   fun buff off sz v h => unpackVarintGo_pos (buff.drop off) 0 0 0 sz v h⟩

/-- Witness for C9 at concrete inputs. -/
theorem decode_cursor_monotone_witness :
    (_unpack ['i'] [0, 0, 0, 7] 0 1 = .ok ([Value.int 7], 4) ∧ (0 : Nat) ≤ 4) ∧
    (_unpack_array ['i'] [0, 0, 0, 7] 2 0 = .ok ([], 2) ∧ (2 : Nat) ≤ 2) ∧
    (unpack_varint_from [5] 0 = .ok (1, 5) ∧ (1 : Nat) ≤ 1) := by
  have h1 : _unpack ['i'] [0, 0, 0, 7] 0 1 = .ok ([Value.int 7], 4) := by
    simp [_unpack_def]
    rw [unpackGo_prim _ _ _ _ _ (by decide) (by decide) (by decide)]
    simp [stdUnpackFrom1, stdSize, stdDecode1, sliceBytes, beNat, toSigned,
      nativeSize, unpackGo_nil]
  have h2 : _unpack_array ['i'] [0, 0, 0, 7] 2 0 = .ok ([], 2) := by
    rw [_unpack_array_def]
    simp [unpackArrayGo_zero, arrayPost]
  have h3 : unpack_varint_from [5] 0 = .ok (1, 5) := by decide
  exact ⟨⟨h1, decode_cursor_monotone.1 ['i'] [0, 0, 0, 7] 0 1 [Value.int 7] 4 h1⟩,
    ⟨h2, decode_cursor_monotone.2.1 ['i'] [0, 0, 0, 7] 2 0 [] 2 h2⟩,
    ⟨h3, decode_cursor_monotone.2.2 [5] 0 1 5 h3⟩⟩

/-- C6: on `S`/`Y` the decoder reads a 2- or 4-byte big-endian signed length
prefix and advances past it; a length of `-1` appends the absent-marker
(Python `None`) and consumes no payload — in particular `"S"` over
`0xFF 0xFF` decodes to the absent-marker having consumed exactly 2 bytes —
otherwise it reads exactly that many payload bytes, advancing by the prefix
size plus the length. -/
theorem unpack_S_Y_length_header :
    (∀ (ch : Char) (buff : List Nat) (rest : List Char) (items : List Value)
        (off w : Nat), (ch = 'S' ∨ ch = 'Y') →
        w = (if ch = 'S' then 2 else 4) → off + w ≤ buff.length →
        (toSigned w (beNat (sliceBytes buff off w)) = -1 →
          unpackGo buff (ch :: rest) Option.none items off =
            unpackGo buff rest Option.none (items ++ [Value.none]) (off + w)) ∧
        (∀ L : Int, toSigned w (beNat (sliceBytes buff off w)) = L → 0 ≤ L →
          off + w + L.toNat ≤ buff.length →
          unpackGo buff (ch :: rest) Option.none items off =
            unpackGo buff rest Option.none
              (items ++ [Value.bytes (sliceBytes buff (off + w) L.toNat)])
              (off + w + L.toNat))) ∧
      _unpack ['S'] [255, 255] 0 1 = .ok ([Value.none], 2) := by
  constructor
  · intro ch buff rest items off w hch hw hle
    subst hw
    constructor
    · intro hmiss
      rw [unpackGo_SY buff ch rest items off hch]
      dsimp only []
      rw [if_pos hle, if_pos hmiss]
    · intro L hL hpos hple
      rw [unpackGo_SY buff ch rest items off hch]
      dsimp only []
      rw [hL, if_pos hle, if_neg (by omega), if_neg (by omega), if_pos hple]
  · rw [_unpack_def, unpackGo_SY _ 'S' _ _ _ (Or.inl rfl)]
    norm_num [sliceBytes, beNat, toSigned, unpackGo_nil]

/-- Witness for C6 at a concrete present-string decode (`"S"` over a 2-byte
prefix 1 and payload `0x61`). -/
theorem unpack_S_Y_length_header_witness :
    (('S' : Char) = 'S' ∨ ('S' : Char) = 'Y') ∧
      (2 : Nat) = (if ('S' : Char) = 'S' then 2 else 4) ∧
      0 + 2 ≤ ([0, 1, 97] : List Nat).length ∧
      (toSigned 2 (beNat (sliceBytes [0, 1, 97] 0 2)) = 1 ∧ (0 : Int) ≤ 1 ∧
        0 + 2 + (1 : Int).toNat ≤ ([0, 1, 97] : List Nat).length ∧
        unpackGo [0, 1, 97] ['S'] Option.none [] 0 =
          unpackGo [0, 1, 97] [] Option.none
            ([] ++ [Value.bytes (sliceBytes [0, 1, 97] (0 + 2) (1 : Int).toNat)])
            (0 + 2 + (1 : Int).toNat)) := by
  refine ⟨Or.inl rfl, by decide, by decide, by decide, by decide, by decide, ?_⟩
  exact (unpack_S_Y_length_header.1 'S' [0, 1, 97] [] [] 0 2 (Or.inl rfl)
    (by decide) (by decide)).2 1 (by decide) (by decide) (by decide)

/-- C5 (amended): `unpack_from` applies the unwrap rule exactly when the
normalized format string *begins* with `'['` and the decoded top-level tuple
has exactly one element (not only when the entire format is a single
top-level array); with format `"[i]"` over count 3 and values 1, 2, 3 this
yields the bare sequence `(1, 2, 3)`. -/
theorem unpack_from_unwrap_rule :
    (∀ (fmt : String) (buff : List Nat) (off : Nat) (output : List Value)
        (o : Nat), stripSpaces fmt ≠ [] → stripOrder (stripSpaces fmt) ≠ [] →
        _unpack (stripOrder (stripSpaces fmt)) buff off 1 = .ok (output, o) →
        unpack_from fmt buff off = .ok
          (if (stripOrder (stripSpaces fmt)).head? = some '[' ∧ output.length = 1
           then output.headI else Value.seq output)) ∧
      unpack_from "[i]" [0, 0, 0, 3, 0, 0, 0, 1, 0, 0, 0, 2, 0, 0, 0, 3] 0 =
        .ok (Value.seq [Value.int 1, Value.int 2, Value.int 3]) := by
  constructor
  · intro fmt buff off output o h0 h1 h
    unfold unpack_from
    cases hs : stripSpaces fmt with
    | nil => exact absurd hs h0
    | cons c0 rest =>
      rw [hs] at h h1
      dsimp only []
      rw [h]
      dsimp only []
      cases hf : stripOrder (c0 :: rest) with
      | nil => exact absurd hf h1
      | cons c1 cs =>
        by_cases hc : c1 = '['
        · subst hc
          cases output with
          | nil => simp
          | cons v t =>
            cases t with
            | nil => simp
            | cons w t2 => simp
        · cases output with
          | nil => simp [hc]
          | cons v t =>
            cases t with
            | nil => simp [hc]
            | cons w t2 => simp [hc]
  · simp [unpack_from, stripSpaces, stripOrder, _unpack_def, unpackGo, _unpack,
      _unpack_array, unpackArrayGo, arrayPost, stdUnpackFrom1, stdSize,
      stdDecode1, nativeSize, sliceBytes, beNat, toSigned]

/-- C5, counterexample: the format `"[i]x"` is *not* a single top-level
array, yet `unpack_from` still unwraps (the stripped format begins with
`'['` and the decoded tuple has exactly one element, the pad byte
contributing none): the result is the bare array `(7)`, not a singly-nested
sequence. -/
theorem unpack_from_unwrap_not_single_array :
    unpack_from "[i]x" [0, 0, 0, 1, 0, 0, 0, 7, 9] 0 =
        .ok (Value.seq [Value.int 7]) ∧
      unpack_from "[i]x" [0, 0, 0, 1, 0, 0, 0, 7, 9] 0 ≠
        .ok (Value.seq [Value.seq [Value.int 7]]) := by
  have h : unpack_from "[i]x" [0, 0, 0, 1, 0, 0, 0, 7, 9] 0 =
      .ok (Value.seq [Value.int 7]) := by
    simp [unpack_from, stripSpaces, stripOrder, _unpack_def, unpackGo, _unpack,
      _unpack_array, unpackArrayGo, arrayPost, stdUnpackFrom1, stdSize,
      stdDecode1, nativeSize, sliceBytes, beNat, toSigned]
  exact ⟨h, by rw [h]; simp⟩

/-! ### Buffer-extension stability (no read past the end influences a result) -/

theorem sliceBytes_append (buff ext : List Nat) (off n : Nat)
    (h : off + n ≤ buff.length) :
    sliceBytes (buff ++ ext) off n = sliceBytes buff off n := by
  unfold sliceBytes
  rw [List.drop_append_of_le_length (by omega)]
  rw [List.take_append_of_le_length (by simp [List.length_drop]; omega)]

theorem unpackVarintGo_append (ext : List Nat) :
    ∀ (l : List Nat) (size shift result : Nat) (p : Nat × Nat),
      unpackVarintGo l size shift result = .ok p →
      unpackVarintGo (l ++ ext) size shift result = .ok p := by
  intro l
  induction l with
  | nil => intro size shift result p h; exact Except.noConfusion h
  | cons b rest ih =>
    intro size shift result p h
    rw [List.cons_append]
    unfold unpackVarintGo at h ⊢
    dsimp only [] at h ⊢
    split at h
    · rename_i hbit
      rw [if_pos hbit]
      exact h
    · rename_i hbit
      rw [if_neg hbit]
      exact ih _ _ _ _ h

theorem unpack_varint_from_append (buff ext : List Nat) (off : Nat)
    (p : Nat × Nat) (h : unpack_varint_from buff off = .ok p) :
    unpack_varint_from (buff ++ ext) off = .ok p := by
  unfold unpack_varint_from at h ⊢
  by_cases hoff : off ≤ buff.length
  · rw [List.drop_append_of_le_length hoff]
    exact unpackVarintGo_append ext _ _ _ _ _ h
  · rw [List.drop_eq_nil_of_le (by omega)] at h
    exact Except.noConfusion h

theorem stdUnpackFrom1_append (c : Char) (buff ext : List Nat) (off : Nat)
    (vs : List Value) (h : stdUnpackFrom1 c buff off = .ok vs) :
    stdUnpackFrom1 c (buff ++ ext) off = .ok vs := by
  unfold stdUnpackFrom1 at h ⊢
  split at h
  · exact Except.noConfusion h
  · rename_i s hs
    split at h
    · rename_i hle
      cases h
      rw [if_pos (by simp only [List.length_append]; omega),
        sliceBytes_append buff ext off s hle]
    · exact Except.noConfusion h

/-- Extension stability across the whole decode recursion: a successful
decode reads only bytes within the buffer, so appending extra bytes changes
nothing — neither values nor offsets (no truncation or zero-fill can occur:
bytes beyond those demanded never influence a successful result). -/
theorem decode_extension_stable :
    (∀ (buff : List Nat) (rem : List Char) (afmt : Option (List Char))
        (items : List Value) (offset : Nat), ∀ ext r,
        unpackGo buff rem afmt items offset = .ok r →
        unpackGo (buff ++ ext) rem afmt items offset = .ok r) ∧
    (∀ (fmt : List Char) (buff : List Nat) (offset : Nat) (count : Int),
        ∀ ext r, _unpack_array fmt buff offset count = .ok r →
        _unpack_array fmt (buff ++ ext) offset count = .ok r) ∧
    (∀ (fmt : List Char) (buff : List Nat) (offset n : Nat), ∀ ext r,
        unpackArrayGo fmt buff offset n = .ok r →
        unpackArrayGo fmt (buff ++ ext) offset n = .ok r) ∧
    (∀ (fmt : List Char) (buff : List Nat) (offset : Nat) (count : Int),
        ∀ ext r, _unpack fmt buff offset count = .ok r →
        _unpack fmt (buff ++ ext) offset count = .ok r) := by
  refine unpackGo.mutual_induct
    (fun buff rem afmt items offset => ∀ ext r,
      unpackGo buff rem afmt items offset = .ok r →
      unpackGo (buff ++ ext) rem afmt items offset = .ok r)
    (fun fmt buff offset count => ∀ ext r,
      _unpack_array fmt buff offset count = .ok r →
      _unpack_array fmt (buff ++ ext) offset count = .ok r)
    (fun fmt buff offset n => ∀ ext r,
      unpackArrayGo fmt buff offset n = .ok r →
      unpackArrayGo fmt (buff ++ ext) offset n = .ok r)
    (fun fmt buff offset count => ∀ ext r,
      _unpack fmt buff offset count = .ok r →
      _unpack fmt (buff ++ ext) offset count = .ok r)
    ?_ ?_ ?_ ?_ ?_ ?_ ?_ ?_ ?_ ?_ ?_ ?_ ?_ ?_ ?_ ?_ ?_ ?_ ?_ ?_ ?_ ?_
  · -- empty format
    intro buff afmt items offset ext r h
    rw [unpackGo_nil] at h ⊢
    exact h
  · -- array close, inner array errors
    intro buff items offset ch rem' a hcond hle count e harr ih2 ext r h
    obtain ⟨hch, hbal⟩ := hcond
    subst hch
    have hc : count = toSigned 4 (beNat (sliceBytes buff offset 4)) := rfl
    rw [hc] at harr
    rw [unpackGo_close buff rem' a items offset hbal hle, harr] at h
    exact Except.noConfusion h
  · -- array close, inner array succeeds
    intro buff items offset ch rem' a hcond hle count arrayItem offset' harr ih2 ih1 ext r h
    obtain ⟨hch, hbal⟩ := hcond
    subst hch
    have hc : count = toSigned 4 (beNat (sliceBytes buff offset 4)) := rfl
    have harr' := harr
    rw [hc] at harr'
    rw [unpackGo_close buff rem' a items offset hbal hle, harr'] at h
    rw [unpackGo_close (buff ++ ext) rem' a items offset hbal
      (by simp only [List.length_append]; omega),
      sliceBytes_append buff ext offset 4 hle]
    have harr2 := ih2 ext (arrayItem, offset') harr
    rw [hc] at harr2
    rw [harr2]
    dsimp only [] at h ⊢
    exact ih1 ext r h
  · -- array close, count prefix out of bounds
    intro buff items offset ch rem' a hcond hle ext r h
    obtain ⟨hch, hbal⟩ := hcond
    subst hch
    rw [unpackGo_close_short buff rem' a items offset hbal hle] at h
    exact Except.noConfusion h
  · -- accumulate into the array format
    intro buff items offset ch rem' a hcond ih ext r h
    rw [unpackGo_accum buff ch rem' a items offset hcond] at h
    rw [unpackGo_accum (buff ++ ext) ch rem' a items offset hcond]
    exact ih ext r h
  · -- open bracket
    intro buff items offset rem' ih ext r h
    rw [unpackGo_open] at h
    rw [unpackGo_open]
    exact ih ext r h
  · -- varint read errors
    intro buff items offset rem' e hv _ ext r h
    rw [unpackGo_V, hv] at h
    exact Except.noConfusion h
  · -- varint read succeeds
    intro buff items offset rem' len_ unpacked hv _ ih ext r h
    rw [unpackGo_V, hv] at h
    rw [unpackGo_V, unpack_varint_from_append buff ext offset _ hv]
    exact ih ext r h
  · -- S/Y with length -1
    intro buff items offset ch rem' h1 h2 hch w hle len_ hneg ih ext r h
    have hw : w = if ch = 'S' then 2 else 4 := rfl
    have hl : len_ = toSigned w (beNat (sliceBytes buff offset w)) := rfl
    rw [unpackGo_SY buff ch rem' items offset hch] at h
    dsimp only [] at h
    rw [← hw, if_pos hle, ← hl, if_pos hneg] at h
    rw [unpackGo_SY (buff ++ ext) ch rem' items offset hch]
    dsimp only []
    rw [← hw, if_pos (by simp only [List.length_append]; omega),
      sliceBytes_append buff ext offset w hle, ← hl, if_pos hneg]
    exact ih ext r h
  · -- S/Y with negative length other than -1
    intro buff items offset ch rem' h1 h2 hch w hle len_ hneg hlt ext r h
    have hw : w = if ch = 'S' then 2 else 4 := rfl
    have hl : len_ = toSigned w (beNat (sliceBytes buff offset w)) := rfl
    rw [unpackGo_SY buff ch rem' items offset hch] at h
    dsimp only [] at h
    rw [← hw, if_pos hle, ← hl, if_neg hneg, if_pos hlt] at h
    exact Except.noConfusion h
  · -- S/Y payload read
    intro buff items offset ch rem' h1 h2 hch w hle len_ hneg hnlt hple ih ext r h
    have hw : w = if ch = 'S' then 2 else 4 := rfl
    have hl : len_ = toSigned w (beNat (sliceBytes buff offset w)) := rfl
    rw [unpackGo_SY buff ch rem' items offset hch] at h
    dsimp only [] at h
    rw [← hw, if_pos hle, ← hl, if_neg hneg, if_neg hnlt, if_pos hple] at h
    rw [unpackGo_SY (buff ++ ext) ch rem' items offset hch]
    dsimp only []
    rw [← hw, if_pos (by simp only [List.length_append]; omega),
      sliceBytes_append buff ext offset w hle, ← hl, if_neg hneg, if_neg hnlt,
      if_pos (by simp only [List.length_append]; omega),
      sliceBytes_append buff ext (offset + w) len_.toNat hple]
    exact ih ext r h
  · -- S/Y payload out of bounds
    intro buff items offset ch rem' h1 h2 hch w hle len_ hneg hnlt hple ext r h
    have hw : w = if ch = 'S' then 2 else 4 := rfl
    have hl : len_ = toSigned w (beNat (sliceBytes buff offset w)) := rfl
    rw [unpackGo_SY buff ch rem' items offset hch] at h
    dsimp only [] at h
    rw [← hw, if_pos hle, ← hl, if_neg hneg, if_neg hnlt, if_neg hple] at h
    exact Except.noConfusion h
  · -- S/Y length prefix out of bounds
    intro buff items offset ch rem' h1 h2 hch w hle ext r h
    have hw : w = if ch = 'S' then 2 else 4 := rfl
    rw [unpackGo_SY buff ch rem' items offset hch] at h
    dsimp only [] at h
    rw [← hw, if_neg hle] at h
    exact Except.noConfusion h
  · -- primitive read errors
    intro buff items offset ch rem' h1 h2 h3 e hstd ext r h
    rw [unpackGo_prim buff ch rem' items offset h1 h2 h3, hstd] at h
    exact Except.noConfusion h
  · -- primitive read succeeds
    intro buff items offset ch rem' h1 h2 h3 vs2 hstd ih ext r h
    rw [unpackGo_prim buff ch rem' items offset h1 h2 h3, hstd] at h
    rw [unpackGo_prim (buff ++ ext) ch rem' items offset h1 h2 h3,
      stdUnpackFrom1_append ch buff ext offset vs2 hstd]
    exact ih ext r h
  · -- _unpack_array: the repetition loop errors
    intro fmt buff offset count e harr ih3 ext r h
    rw [_unpack_array_def, harr] at h
    exact Except.noConfusion h
  · -- _unpack_array: the repetition loop succeeds
    intro fmt buff offset count output offset' harr ih3 ext r h
    rw [_unpack_array_def, harr] at h
    rw [_unpack_array_def, ih3 ext (output, offset') harr]
    exact h
  · -- zero repetitions
    intro fmt buff offset ext r h
    rw [unpackArrayGo_zero] at h ⊢
    exact h
  · -- repetition: the element decode errors
    intro fmt buff offset m e hel ih4 ext r h
    rw [unpackArrayGo_succ, hel] at h
    exact Except.noConfusion h
  · -- repetition: the remaining loop errors
    intro fmt buff offset m arrayItem offset' hel e hrest ih4 ih3 ext r h
    rw [unpackArrayGo_succ, hel] at h
    dsimp only [] at h
    rw [hrest] at h
    exact Except.noConfusion h
  · -- repetition: element and loop both succeed
    intro fmt buff offset m arrayItem offset' hel output offset'' hrest ih4 ih3 ext r h
    rw [unpackArrayGo_succ, hel] at h
    dsimp only [] at h
    rw [hrest] at h
    rw [unpackArrayGo_succ, ih4 ext (arrayItem, offset') hel]
    dsimp only []
    rw [ih3 ext (output, offset'') hrest]
    exact h
  · -- _unpack delegates to the loop
    intro fmt buff offset count ih1 ext r h
    rw [_unpack_def] at h
    rw [_unpack_def]
    exact ih1 ext r h

/-- `unpack_from` never reads past the buffer: appending bytes to the buffer
cannot change a successful result. -/
theorem unpack_from_extension (fmt : String) (buff ext : List Nat) (off : Nat)
    (v : Value) (h : unpack_from fmt buff off = .ok v) :
    unpack_from fmt (buff ++ ext) off = .ok v := by
  unfold unpack_from at h ⊢
  cases hs : stripSpaces fmt with
  | nil => rw [hs] at h; exact Except.noConfusion h
  | cons c0 rest =>
    rw [hs] at h
    dsimp only [] at h ⊢
    cases hu : _unpack (stripOrder (c0 :: rest)) buff off 1 with
    | error e => rw [hu] at h; exact Except.noConfusion h
    | ok q =>
      rw [hu] at h
      rw [decode_extension_stable.2.2.2 _ _ _ _ ext q hu]
      exact h

/-- C7: decoding fails with a propagated error whenever the buffer holds
fewer bytes than the format demands, and a successful result never
incorporates truncated or zero-filled data — formalized as (i) a successful
decode depends only on the bytes actually inside the buffer (appending more
bytes changes nothing, so no read ever went past the end), together with
(ii) short-buffer errors at each token family: a primitive, an `S` length
prefix, an `S` payload, an array element, and a varint continuation. -/
theorem unpack_short_buffer_errors :
    (∀ (fmt : String) (buff ext : List Nat) (off : Nat) (v : Value),
        unpack_from fmt buff off = .ok v →
        unpack_from fmt (buff ++ ext) off = .ok v) ∧
      isErr (unpack_from "i" [0, 0, 1] 0) = true ∧
      isErr (unpack_from "S" [255] 0) = true ∧
      isErr (unpack_from "S" [0, 3, 97] 0) = true ∧
      isErr (unpack_from "[i]" [0, 0, 0, 2, 0, 0, 0, 1] 0) = true ∧
      isErr (unpack_from "V" [128, 129] 0) = true := by
  refine ⟨fun fmt buff ext off v h => unpack_from_extension fmt buff ext off v h,
    ?_, ?_, ?_, ?_, ?_⟩ <;>
    simp [unpack_from, stripSpaces, stripOrder, _unpack_def, unpackGo, _unpack,
      _unpack_array, unpackArrayGo, arrayPost, stdUnpackFrom1, stdSize,
      stdDecode1, nativeSize, sliceBytes, beNat, toSigned, unpack_varint_from,
      unpackVarintGo, isErr]

/-- Witness for C7's general conjunct at a concrete decode. -/
theorem unpack_short_buffer_errors_witness :
    unpack_from "i" [0, 0, 0, 7] 0 = .ok (Value.seq [Value.int 7]) ∧
      unpack_from "i" ([0, 0, 0, 7] ++ [9]) 0 = .ok (Value.seq [Value.int 7]) := by
  have h : unpack_from "i" [0, 0, 0, 7] 0 = .ok (Value.seq [Value.int 7]) := by
    simp [unpack_from, stripSpaces, stripOrder, _unpack_def, unpackGo,
      stdUnpackFrom1, stdSize, stdDecode1, nativeSize, sliceBytes, beNat,
      toSigned]
  exact ⟨h, unpack_short_buffer_errors.1 "i" [0, 0, 0, 7] [9] 0 _ h⟩

/-- Witness for C5's general conjunct at a non-array format (`"i"`): the
unwrap condition is false and the result stays wrapped. -/
theorem unpack_from_unwrap_rule_witness :
    (stripSpaces "i" ≠ [] ∧ stripOrder (stripSpaces "i") ≠ [] ∧
      _unpack (stripOrder (stripSpaces "i")) [0, 0, 0, 7] 0 1 =
        .ok ([Value.int 7], 4)) ∧
      unpack_from "i" [0, 0, 0, 7] 0 = .ok
        (if (stripOrder (stripSpaces "i")).head? = some '[' ∧
            ([Value.int 7] : List Value).length = 1
         then ([Value.int 7] : List Value).headI
         else Value.seq [Value.int 7]) := by
  have h : _unpack (stripOrder (stripSpaces "i")) [0, 0, 0, 7] 0 1 =
      .ok ([Value.int 7], 4) := by
    simp [stripSpaces, stripOrder, _unpack_def, unpackGo, stdUnpackFrom1,
      stdSize, stdDecode1, nativeSize, sliceBytes, beNat, toSigned]
  exact ⟨⟨by simp [stripSpaces], by simp [stripSpaces, stripOrder], h⟩,
    unpack_from_unwrap_rule.1 "i" [0, 0, 0, 7] 0 [Value.int 7] 4
      (by simp [stripSpaces]) (by simp [stripSpaces, stripOrder]) h⟩
